import Mathlib

/-!
# xls2json: the walk, the sheet loader, the sheet parsers and the cell coercion

A shallow embedding of `main.go` (`walkFunc`, `parseExcel`, `parseArray`, `parseSingle`,
`conv`) together with the parts of Go's `strconv`, `strings`, `path/filepath` and
`encoding/json` that it calls.

Conventions of the embedding.

* A Go `string` is a Lean `String`; `len(s)` is `String.utf8ByteSize`.  The `strconv`
  loops run over bytes in Go; here they run over characters.  A character outside ASCII
  stands for two or more bytes that are all `>= 0x80`, so it is neither a sign nor a
  digit, exactly as each of its bytes.
* `int` is 64 bits wide (`strconv.IntSize = 64`); arithmetic on it wraps (`wrapInt64`).
* A `float64` is carried by its bit pattern; `strconv.ParseFloat` is a parameter.
* A Go `map[string]interface{}` is an association list without repeated keys, kept in
  order of first insertion (`GoMap.set`); a Go map itself has no order.
* A result is a value, a returned `error`, or a run-time fault (index out of range, nil
  dereference).
* Paths are Unix paths: the separator is `/` and there is no volume name.
* The calls `parseExcel` makes to the outside are recorded in a list of events; the
  answers of the operating system are fields of `Env` and may depend on that list.
* `json.MarshalIndent` is modelled up to the layout of the text: what is kept is the
  order of the array elements and of the members of each object. It fails, with no
  bytes, on a value that holds a NaN or an infinite `float64`.
-/

namespace Xls2json

/-! ## strconv -/

/-- The two sentinel errors of `strconv`: `ErrSyntax` and `ErrRange`. -/
inductive ErrKind where
  | invalid
  | range
  deriving DecidableEq

/-- Go's `strconv.NumError`: the failing function, the input text and the sentinel. -/
structure NumError where
  Func : String
  Num : String
  Err : ErrKind
  deriving DecidableEq

/-- Conversion `int64(x)` and `int64` arithmetic: reduction to `[-2^63, 2^63)`. -/
def wrapInt64 (z : Int) : Int := (z + 2 ^ 63) % 2 ^ 64 - 2 ^ 63

/-- The test `'0' <= c && c <= '9'` of `ParseUint`; the fast path of `Atoi` writes it
`ch -= '0'; ch > 9` on a byte, which rejects the same bytes. -/
def isDigit (c : Char) : Bool := decide (48 ≤ c.toNat) && decide (c.toNat ≤ 57)

/-- The digit value `c - '0'`. -/
def digitVal (c : Char) : Nat := c.toNat - 48

/-- Fast-path loop of `Atoi`: `n = n*10 + int(ch)` on `int`, `none` on a non-digit. -/
def atoiLoop : List Char → Int → Option Int
  | [], n => some n
  | ch :: rest, n =>
    if isDigit ch then atoiLoop rest (wrapInt64 (n * 10 + (digitVal ch : Nat))) else none

/-- The constant `maxUint64/10 + 1` of `ParseUint` for base 10. -/
def uintCutoff : Nat := (2 ^ 64 - 1) / 10 + 1

/-- The constant `maxVal := 1<<bitSize - 1` of `ParseUint` for `bitSize = 64`. -/
def maxVal : Nat := 2 ^ 64 - 1

/-- The digit loop of `ParseUint(s, 10, 0)`; the accumulator `n` is a `uint64`. With
base 10 an underscore is not skipped, and a letter is a digit `>= 10 = base`: both end in
the syntax error, as every other non-digit does. -/
def parseUintLoop : List Char → Nat → Nat × Option ErrKind
  | [], n => (n, none)
  | c :: rest, n =>
    if isDigit c then
      if n ≥ uintCutoff then (maxVal, some ErrKind.range)
      else
        let n10 := (n * 10) % 2 ^ 64
        let n1 := (n10 + digitVal c) % 2 ^ 64
        if n1 < n10 ∨ n1 > maxVal then (maxVal, some ErrKind.range)
        else parseUintLoop rest n1
    else (0, some ErrKind.invalid)

/-- Go's `strconv.ParseUint(s, 10, 0)`: the value and the error, as Go returns both. -/
def ParseUint (s : List Char) : Nat × Option ErrKind :=
  if s = [] then (0, some ErrKind.invalid) else parseUintLoop s 0

/-- The second half of `ParseInt(s, 10, 0)`, after the sign is picked off: convert the
unsigned text and check the range for `bitSize = 64`. -/
def parseIntRange (neg : Bool) (s : List Char) : Except ErrKind Int :=
  match ParseUint s with
  | (_, some ErrKind.invalid) => Except.error ErrKind.invalid
  | (un, _) =>
    let cutoff : Nat := 2 ^ 63
    if neg = false ∧ un ≥ cutoff then Except.error ErrKind.range
    else if neg = true ∧ un > cutoff then Except.error ErrKind.range
    else
      let n := wrapInt64 (un : Nat)
      Except.ok (if neg = true then wrapInt64 (-n) else n)

/-- Go's `strconv.ParseInt(s, 10, 0)`. -/
def ParseInt (s0 : List Char) : Except ErrKind Int :=
  if s0 = [] then Except.error ErrKind.invalid
  else if s0.head? = some '+' then parseIntRange false s0.tail
  else if s0.head? = some '-' then parseIntRange true s0.tail
  else parseIntRange false s0

/-- The fast path of `Atoi`, taken when `0 < len(s) < 19`. -/
def atoiFast (s0 : List Char) : Except ErrKind Int :=
  let signed : Bool := decide (s0.head? = some '-') || decide (s0.head? = some '+')
  let s := if signed then s0.tail else s0
  if signed ∧ s.length < 1 then Except.error ErrKind.invalid
  else
    match atoiLoop s 0 with
    | none => Except.error ErrKind.invalid
    | some n => Except.ok (if s0.head? = some '-' then wrapInt64 (-n) else n)

/-- Go's `strconv.Atoi`; every error it returns has `Func = "Atoi"` and `Num = s`. -/
def Atoi (s : String) : Except NumError Int :=
  let sLen := s.utf8ByteSize
  let r := if 0 < sLen ∧ sLen < 19 then atoiFast s.data else ParseInt s.data
  match r with
  | Except.ok n => Except.ok n
  | Except.error k => Except.error ⟨"Atoi", s, k⟩

/-! ## The wording of the specification for the label `"int"` -/

/-- The base-10 value of a digit sequence, most significant digit first. -/
def decimalValue (digits : List Char) : Nat :=
  digits.foldl (fun n c => n * 10 + (c.toNat - '0'.toNat)) 0

/-- The wording of the specification for the label `"int"`: the text is an optional single
`+` or `-` followed by one or more ASCII decimal digits, and `n` is the integer it
denotes, within the signed 64-bit range. -/
def IsDecimalInt (text : String) (n : Int) : Prop :=
  ∃ sign digits : List Char, text.data = sign ++ digits ∧
    (sign = [] ∨ sign = ['+'] ∨ sign = ['-']) ∧
    digits ≠ [] ∧ (∀ c ∈ digits, c.isDigit = true) ∧
    n = (if sign = ['-'] then -(decimalValue digits : Int) else (decimalValue digits : Int)) ∧
    -(2 : Int) ^ 63 ≤ n ∧ n < (2 : Int) ^ 63

/-- The accumulator form of `decimalValue`. -/
def decFold (n : Nat) (cs : List Char) : Nat :=
  cs.foldl (fun a c => a * 10 + digitVal c) n

/-- A digit sequence with the sign already taken off denotes `n` in the `int64` range. -/
def SignedDigits (neg : Bool) (ds : List Char) (n : Int) : Prop :=
  ds ≠ [] ∧ (∀ c ∈ ds, isDigit c = true) ∧
    n = (if neg = true then -(decFold 0 ds : Int) else (decFold 0 ds : Int)) ∧
    -(2 : Int) ^ 63 ≤ n ∧ n < (2 : Int) ^ 63

/-- The text with its sign picked off, as `ParseInt` and `Atoi` do it, denotes `n`. -/
def SignedText (s0 : List Char) (n : Int) : Prop :=
  if s0.head? = some '+' then SignedDigits false s0.tail n
  else if s0.head? = some '-' then SignedDigits true s0.tail n
  else SignedDigits false s0 n

/-! ## Values, maps, results -/

/-- The dynamic values `conv` stores in an `interface{}`. -/
inductive Value where
  | int (i : Int)
  | float (bits : Nat)
  | str (s : String)
  deriving DecidableEq

/-- A Go `map[string]interface{}`: distinct keys, in order of first insertion. -/
abbrev GoMap := List (String × Value)

/-- The assignment `m[k] = v`. -/
def GoMap.set : GoMap → String → Value → GoMap
  | [], k, v => [(k, v)]
  | (k', v') :: m, k, v => if k' = k then (k, v) :: m else (k', v') :: GoMap.set m k v

/-- The read `m[k]` with its presence flag. -/
def GoMap.get : GoMap → String → Option Value
  | [], _ => none
  | (k', v') :: m, k => if k' = k then some v' else GoMap.get m k

/-- The keys of the map. -/
def GoMap.keys (m : GoMap) : List String := m.map Prod.fst

/-- The errors that `parseArray` and `parseSingle` return; each constructor is one
`fmt.Errorf` format (or the error of `GetRows` passed on) with its arguments. -/
inductive ParseError where
  /-- The error of `f.GetRows("Sheet1")`, returned unchanged. -/
  | getRows (msg : String)
  /-- Format `"字段名与字段类型对不齐"`. -/
  | schemaMismatch
  /-- Format `"在第%d行%d列配置项与字段对不齐"`. -/
  | rowLength (row col : Nat)
  /-- Format `"在第%d行%d列错误: %s"`. -/
  | cellConversion (row col : Nat) (cause : NumError)
  /-- Format `"在第%d行配置项对不齐"`. -/
  | rowTooShort (row : Nat)
  /-- Format `"在第%d行错误: %s"`. -/
  | rowConversion (row : Nat) (cause : NumError)
  deriving DecidableEq

/-- What a call does: return a value, return an error, or fault at run time. -/
inductive Result (α : Type) where
  | ok (a : α)
  | err (e : ParseError)
  | fault
  deriving DecidableEq

/-- The part of `*excelize.File` that main.go uses. -/
structure File where
  GetRows : String → Except String (List (List String))
  GetCellValue : String → String → Except String String

/-! ## main.go -/

section Parsers

variable (ParseFloat : String → Except NumError Nat)

/-- The function `conv` of main.go. -/
def conv (value typ : String) : Except NumError Value :=
  if typ = "int" then
    match Atoi value with
    | Except.ok i => Except.ok (Value.int i)
    | Except.error e => Except.error e
  else if typ = "float" then
    match ParseFloat value with
    | Except.ok f => Except.ok (Value.float f)
    | Except.error e => Except.error e
  else if typ = "string" then Except.ok (Value.str value)
  else Except.ok (Value.str value)

/-- The inner loop of `parseArray`, `for i := 0; i < fieldLen; i++`, with `remaining`
iterations to go from index `i`; `idx` is the index of the row in `rows[5:]`. -/
def recordLoop (fields types row : List String) (idx : Nat) :
    Nat → Nat → GoMap → Result GoMap
  | 0, _, record => Result.ok record
  | remaining + 1, i, record =>
    match row[i]?, types[i]? with
    | some cell, some typ =>
      match conv ParseFloat cell typ with
      | Except.error e => Result.err (ParseError.cellConversion (idx + 6) (i + 1) e)
      | Except.ok value =>
        match fields[i]? with
        | some name => recordLoop fields types row idx remaining (i + 1) (GoMap.set record name value)
        | none => Result.fault
    | _, _ => Result.fault

/-- The body of the outer loop of `parseArray` for one row: the length check, then the
record of the row. -/
def rowRecord (fields types row : List String) (idx : Nat) : Result GoMap :=
  if row.length ≠ fields.length then
    Result.err (ParseError.rowLength (idx + 6) (row.length + 1))
  else recordLoop ParseFloat fields types row idx fields.length 0 []

/-- The outer loop of `parseArray`, `for idx, row := range rows[5:]`. -/
def arrayLoop (fields types : List String) :
    List (List String) → Nat → List GoMap → Result (List GoMap)
  | [], _, cfgs => Result.ok cfgs
  | row :: rest, idx, cfgs =>
    match rowRecord ParseFloat fields types row idx with
    | Result.ok record => arrayLoop fields types rest (idx + 1) (cfgs ++ [record])
    | Result.err e => Result.err e
    | Result.fault => Result.fault

/-- The function `parseArray` of main.go. -/
def parseArray (f : File) : Result (List GoMap) :=
  match f.GetRows "Sheet1" with
  | Except.error e => Result.err (ParseError.getRows e)
  | Except.ok rows =>
    match rows[3]? with
    | none => Result.fault
    | some fields =>
      match rows[4]? with
      | none => Result.fault
      | some types =>
        if fields.length ≠ types.length then Result.err ParseError.schemaMismatch
        else if rows.length < 5 then Result.fault
        else arrayLoop ParseFloat fields types (rows.drop 5) 0 []

/-- The loop of `parseSingle`, `for idx, row := range rows[3:]`. -/
def singleLoop : List (List String) → Nat → GoMap → Result GoMap
  | [], _, record => Result.ok record
  | row :: rest, idx, record =>
    if row.length < 3 then Result.err (ParseError.rowTooShort (idx + 4))
    else
      match row[2]?, row[1]? with
      | some cell, some typ =>
        match conv ParseFloat cell typ with
        | Except.error e => Result.err (ParseError.rowConversion (idx + 4) e)
        | Except.ok value =>
          match row[0]? with
          | some key => singleLoop rest (idx + 1) (GoMap.set record key value)
          | none => Result.fault
      | _, _ => Result.fault

/-- The function `parseSingle` of main.go. -/
def parseSingle (f : File) : Result GoMap :=
  match f.GetRows "Sheet1" with
  | Except.error e => Result.err (ParseError.getRows e)
  | Except.ok rows =>
    if rows.length < 3 then Result.fault
    else singleLoop ParseFloat (rows.drop 3) 0 []

end Parsers

/-- The text of the cell in column B of the grid row `i`, empty when there is none. -/
def cellB (rows : List (List String)) (i : Nat) : String :=
  match rows[i]? with
  | some row => row[1]?.getD ""
  | none => ""

/-- A workbook whose `Sheet1` has the given rows; `B1` and `B2` are read off the grid. -/
def fileOf (rows : List (List String)) : File :=
  ⟨fun _ => Except.ok rows,
   fun _ cell => Except.ok (if cell = "B1" then cellB rows 0
     else if cell = "B2" then cellB rows 1 else "")⟩

/-- A `ParseFloat` that rejects every text; used where no cell has the label `"float"`. -/
def noFloat : String → Except NumError Nat := fun s => Except.error ⟨"ParseFloat", s, ErrKind.invalid⟩

/-- Successive assignments `m[k] = v`, left to right. -/
def GoMap.setAll (m : GoMap) (ps : List (String × Value)) : GoMap :=
  ps.foldl (fun acc p => GoMap.set acc p.1 p.2) m

section Predicates

variable (ParseFloat : String → Except NumError Nat)

/-- A data row is fully valid: it has `fieldLen` cells and every cell coerces under the
type label of its column. -/
def ValidRow (fields types row : List String) : Prop :=
  row.length = fields.length ∧
    ∀ (i : Nat) (cell typ : String), row[i]? = some cell → types[i]? = some typ →
      ∃ v, conv ParseFloat cell typ = Except.ok v

/-- A data row of a single-shape sheet is fully valid: it has at least three cells and
its third cell coerces under the label in its second cell. -/
def ValidTriple (row : List String) : Prop :=
  3 ≤ row.length ∧
    ∀ (cell typ : String), row[2]? = some cell → row[1]? = some typ →
      ∃ v, conv ParseFloat cell typ = Except.ok v

end Predicates

/-! ## strings and path/filepath (Unix) -/

/-- Go's `os.IsPathSeparator` on Unix: the byte `/`. -/
def IsPathSeparator (c : Char) : Bool := decide (c = '/')

/-- Go's `strings.HasPrefix`, which is also `filepath.HasPrefix` on Unix. -/
def HasPrefix (s pre : String) : Bool := List.isPrefixOf pre.data s.data

/-- Go's `strings.TrimPrefix`: `s` without the leading `pre`, or `s` itself. -/
def TrimPrefix (s pre : String) : String :=
  if HasPrefix s pre = true then String.mk (s.data.drop pre.data.length) else s

/-- The loop of `filepath.Ext`, from the last byte backwards: it stops at a separator
with the empty result and at a dot with the suffix read so far. -/
def extLoop : List Char → List Char → List Char
  | [], _ => []
  | c :: rest, acc =>
    if IsPathSeparator c = true then []
    else if c = '.' then '.' :: acc
    else extLoop rest (c :: acc)

/-- Go's `filepath.Ext`: the suffix beginning at the final dot in the final element of
the path, empty if there is no dot. -/
def Ext (path : String) : String := String.mk (extLoop path.data.reverse [])

/-- Go's `filepath.Base` on Unix: the last element of the path, after trailing
separators are stripped; `"."` for the empty path and `"/"` for a path of separators. -/
def Base (path : String) : String :=
  if path.data = [] then "."
  else
    let stripped := path.data.reverse.dropWhile IsPathSeparator
    let last := (stripped.takeWhile (fun c => !IsPathSeparator c)).reverse
    if last = [] then "/" else String.mk last

/-- The backtracking of `Clean` at a `..` element, on the output buffer in reverse and
after the first `out.w--`: `popped` is the byte at `out.w`. -/
def cleanBacktrack (dotdot : Nat) : Char → List Char → List Char
  | _, [] => []
  | popped, c :: out =>
    if (c :: out).length > dotdot ∧ IsPathSeparator popped = false then
      cleanBacktrack dotdot c out
    else c :: out

/-- The main loop of `filepath.Clean`: `path` is what is left to read, `out` the output
buffer in reverse, `dotdot` the index where `..` must stop. Each round reads at least
one byte, so `fuel = len(path)` rounds are enough. -/
def cleanLoop (rooted : Bool) : Nat → List Char → List Char → Nat → List Char
  | 0, _, out, _ => out
  | _ + 1, [], out, _ => out
  | fuel + 1, c :: rest, out, dotdot =>
    if IsPathSeparator c = true then cleanLoop rooted fuel rest out dotdot
    else if c = '.' ∧ (rest = [] ∨ rest.head?.map IsPathSeparator = some true) then
      cleanLoop rooted fuel rest out dotdot
    else if c = '.' ∧ rest.head? = some '.' ∧
        (rest.tail = [] ∨ rest.tail.head?.map IsPathSeparator = some true) then
      match out with
      | popped :: out' =>
        if out.length > dotdot then
          cleanLoop rooted fuel rest.tail (cleanBacktrack dotdot popped out') dotdot
        else if rooted = false then
          cleanLoop rooted fuel rest.tail ('.' :: '.' :: '/' :: out) (out.length + 3)
        else cleanLoop rooted fuel rest.tail out dotdot
      | [] =>
        if rooted = false then cleanLoop rooted fuel rest.tail ['.', '.'] 2
        else cleanLoop rooted fuel rest.tail out dotdot
    else
      let out1 := if (rooted = true ∧ out.length ≠ 1) ∨ (rooted = false ∧ out.length ≠ 0)
        then '/' :: out else out
      let elem := (c :: rest).takeWhile (fun x => !IsPathSeparator x)
      cleanLoop rooted fuel ((c :: rest).dropWhile (fun x => !IsPathSeparator x))
        (elem.reverse ++ out1) dotdot

/-- Go's `filepath.Clean` on Unix. -/
def Clean (path : String) : String :=
  match path.data with
  | [] => "."
  | c :: rest =>
    let out :=
      if IsPathSeparator c = true then cleanLoop true rest.length rest ['/'] 1
      else cleanLoop false (c :: rest).length (c :: rest) [] 0
    if out = [] then "." else String.mk out.reverse

/-- Go's `filepath.Join`: the elements from the first non-empty one on, joined by the
separator and cleaned; the empty string when every element is empty. -/
def Join : List String → String
  | [] => ""
  | e :: rest => if e = "" then Join rest else Clean (String.intercalate "/" (e :: rest))

/-- Go's `filepath.Dir`: the path up to and including its last separator, cleaned. -/
def Dir (path : String) : String :=
  Clean (String.mk (path.data.reverse.dropWhile (fun c => !IsPathSeparator c)).reverse)

/-- Go's `filepath.Abs` in the working directory `pwd` (`os.Getwd` succeeding). -/
def Abs (pwd path : String) : String :=
  if path.data.head?.map IsPathSeparator = some true then Clean path else Join [pwd, path]

/-- The suffix of a name from its last dot on, empty if the name has no dot. -/
def lastDotSuffix (name : String) : String :=
  if '.' ∈ name.data then
    String.mk ('.' :: (name.data.reverse.takeWhile (fun c => decide (c ≠ '.'))).reverse)
  else ""

/-! ## encoding/json -/

/-- A JSON object as it is written: its members in the order of the text. -/
abbrev JsonObject := List (String × Value)

/-- The documents `parseExcel` writes: an array of objects or one object. -/
inductive JsonDoc where
  | array (elems : List JsonObject)
  | object (members : JsonObject)
  deriving DecidableEq

/-- The value `cfgs` of `parseExcel`: what `parseArray` or `parseSingle` returned. -/
inductive Cfg where
  | list (cfgs : List GoMap)
  | single (record : GoMap)
  deriving DecidableEq

/-- Insertion of a member before the first member with a greater key; keys compare as
byte strings, which for UTF-8 is the order of their code points. -/
def insertMember (p : String × Value) : JsonObject → JsonObject
  | [] => [p]
  | q :: rest =>
    if p.1.data < q.1.data then p :: q :: rest else q :: insertMember p rest

/-- How `encoding/json` writes a `map[string]interface{}`: the keys are sorted. -/
def marshalMap (m : GoMap) : JsonObject := m.foldr insertMember []

/-- The `float64` with these bits is a NaN or an infinity: its 11 exponent bits, above
the 52 bits of the fraction, are all ones. -/
def isNaNOrInf (bits : Nat) : Bool := decide ((bits / 2 ^ 52) % 2 ^ 11 = 2047)

/-- The values `encoding/json` can write: every integer and string, and every `float64`
that is neither a NaN nor an infinity (for these it returns an `UnsupportedValueError`). -/
def Value.marshals : Value → Bool
  | Value.int _ => true
  | Value.float bits => !isNaNOrInf bits
  | Value.str _ => true

/-- The maps `encoding/json` can write: those whose values can all be written. -/
def GoMap.marshals (m : GoMap) : Bool := m.all (fun p => p.2.marshals)

/-- Go's `json.MarshalIndent` on the values `parseExcel` passes to it, up to the layout
of the text: the order of the array elements and of the members of each object. The
result `none` is the error return, whose byte slice is nil. -/
def MarshalIndent : Cfg → Option JsonDoc
  | Cfg.list cfgs =>
    if cfgs.all GoMap.marshals = true then some (JsonDoc.array (cfgs.map marshalMap)) else none
  | Cfg.single record =>
    if GoMap.marshals record = true then some (JsonDoc.object (marshalMap record)) else none

/-- The keys of a written object, in the order of the text. -/
def JsonObject.keys (o : JsonObject) : List String := o.map Prod.fst

/-- The objects of a written document, in the order of the text. -/
def JsonDoc.objects : JsonDoc → List JsonObject
  | JsonDoc.array elems => elems
  | JsonDoc.object members => [members]

/-! ## The world of `parseExcel` and `walkFunc` -/

/-- The calls `parseExcel` makes to the outside, in the order it makes them. -/
inductive Event where
  /-- The call `excelize.OpenFile(xlsxName)`. -/
  | openFile (xlsxName : String)
  /-- The call `f.GetCellValue(sheet, cell)` on the workbook `xlsxName`. -/
  | getCellValue (xlsxName sheet cell : String)
  /-- The call `f.GetRows(sheet)` at the head of `parseArray` and `parseSingle`. -/
  | getRows (xlsxName sheet : String)
  /-- The call `os.MkdirAll(dir, 0755)`. -/
  | mkdirAll (dir : String)
  /-- The call `os.OpenFile(path, O_CREATE|O_WRONLY|O_TRUNC, 0644)`. -/
  | createFile (path : String)
  /-- The call `fd.Write(d)`: `d` holds the marshalled document, or is nil, so that no
  byte is written, when `json.MarshalIndent` returned an error. -/
  | write (path : String) (d : Option JsonDoc)
  /-- The call `fd.Close()`. -/
  | closeOut (path : String)
  /-- The deferred call `f.Close()`. -/
  | close (xlsxName : String)
  deriving DecidableEq

/-- The errors `parseExcel` returns, one constructor for each `return` with an error. -/
inductive ExcelError where
  /-- The error of `excelize.OpenFile`, returned unchanged. -/
  | openFile (msg : String)
  /-- Format `"[%s]: %s"` with the error of `GetCellValue`. -/
  | cellValue (xlsxName msg : String)
  /-- Format `"[%s]: 配置类型错误，仅支持“列表”与“单项”"`. -/
  | cfgType (xlsxName : String)
  /-- Format `"[%s]: %s"` with the error of `parseArray` or `parseSingle`. -/
  | parse (xlsxName : String) (cause : ParseError)
  /-- The error of `os.MkdirAll`, returned unchanged. -/
  | mkdirAll (msg : String)
  /-- Format `"[%s]: %s"` with the error of `os.OpenFile`. -/
  | createFile (xlsxName msg : String)
  deriving DecidableEq

/-- What a call returning `error` does: return nil, return an error, or fault. -/
inductive Outcome where
  | nil
  | failed (e : ExcelError)
  | fault
  deriving DecidableEq

/-- The globals `dirParam` and `pwd` of main.go and the answers of the operating system
to the calls of `parseExcel`; an answer may depend on the calls made so far. -/
structure Env where
  dirParam : String
  pwd : String
  OpenFile : List Event → String → Except String File
  MkdirAll : List Event → String → Option String
  CreateFile : List Event → String → Option String

/-- The part of `os.FileInfo` that `walkFunc` uses. -/
structure FileInfo where
  IsDir : Bool
  deriving DecidableEq

/-- One call of the walk function by `filepath.Walk`: the path, the file info (nil when
`Lstat` failed) and the error of the walker (nil when there is none). -/
structure Entry where
  path : String
  info : Option FileInfo
  err : Option String

/-- The value of a result under a function. -/
def Result.map {α β : Type} (g : α → β) : Result α → Result β
  | Result.ok a => Result.ok (g a)
  | Result.err e => Result.err e
  | Result.fault => Result.fault

/-- Lines 103 to 105 of main.go: the path of the JSON file. The working directory that
`filepath.Abs` consults is the one main.go stored in `pwd`; the program never changes
it. -/
def jsonFilePath (env : Env) (xlsxName fileName : String) : String :=
  let absPath := Abs env.pwd (Dir xlsxName)
  let relativePath := TrimPrefix absPath env.dirParam
  Join [env.pwd, "json", relativePath, fileName ++ ".json"]

/-- Lines 98 to 121 of `parseExcel`: the check of the parser's error and the writing of
the JSON file. A fault of the parser unwinds through the deferred `f.Close()`. The error
of `json.MarshalIndent` is dropped (`d, _ :=`) and `d` is written as it is. -/
def writeJson (env : Env) (xlsxName fileName : String) (parsed : Result Cfg)
    (t : List Event) : Outcome × List Event :=
  match parsed with
  | Result.fault => (Outcome.fault, t ++ [Event.close xlsxName])
  | Result.err e => (Outcome.failed (ExcelError.parse xlsxName e), t ++ [Event.close xlsxName])
  | Result.ok cfgs =>
    let path := jsonFilePath env xlsxName fileName
    match env.MkdirAll t (Dir path) with
    | some e =>
      (Outcome.failed (ExcelError.mkdirAll e),
        t ++ [Event.mkdirAll (Dir path), Event.close xlsxName])
    | none =>
      match env.CreateFile (t ++ [Event.mkdirAll (Dir path)]) path with
      | some e =>
        (Outcome.failed (ExcelError.createFile xlsxName e),
          t ++ [Event.mkdirAll (Dir path), Event.createFile path, Event.close xlsxName])
      | none =>
        (Outcome.nil,
          t ++ [Event.mkdirAll (Dir path), Event.createFile path,
            Event.write path (MarshalIndent cfgs), Event.closeOut path, Event.close xlsxName])

section Walker

variable (ParseFloat : String → Except NumError Nat)

/-- The function `parseExcel` of main.go; `t` holds the calls made before it and the
second component of the result the calls made after it. -/
def parseExcel (env : Env) (xlsxName : String) (t : List Event) : Outcome × List Event :=
  match env.OpenFile t xlsxName with
  | Except.error e => (Outcome.failed (ExcelError.openFile e), t ++ [Event.openFile xlsxName])
  | Except.ok f =>
    let t1 := t ++ [Event.openFile xlsxName, Event.getCellValue xlsxName "Sheet1" "B1"]
    match f.GetCellValue "Sheet1" "B1" with
    | Except.error e =>
      (Outcome.failed (ExcelError.cellValue xlsxName e), t1 ++ [Event.close xlsxName])
    | Except.ok fileName =>
      let t2 := t1 ++ [Event.getCellValue xlsxName "Sheet1" "B2"]
      match f.GetCellValue "Sheet1" "B2" with
      | Except.error e =>
        (Outcome.failed (ExcelError.cellValue xlsxName e), t2 ++ [Event.close xlsxName])
      | Except.ok cfgType =>
        if cfgType = "列表" then
          writeJson env xlsxName fileName (Result.map Cfg.list (parseArray ParseFloat f))
            (t2 ++ [Event.getRows xlsxName "Sheet1"])
        else if cfgType = "单项" then
          writeJson env xlsxName fileName (Result.map Cfg.single (parseSingle ParseFloat f))
            (t2 ++ [Event.getRows xlsxName "Sheet1"])
        else (Outcome.failed (ExcelError.cfgType xlsxName), t2 ++ [Event.close xlsxName])

/-- The function `walkFunc` of main.go. The error `err` of the walker is not read; the
call `info.IsDir()` on a nil `info` is a run-time fault. -/
def walkFunc (env : Env) (path : String) (info : Option FileInfo) (_err : Option String)
    (t : List Event) : Outcome × List Event :=
  match info with
  | none => (Outcome.fault, t)
  | some fi =>
    if fi.IsDir = true then (Outcome.nil, t)
    else if HasPrefix (Base path) "~$" = true then (Outcome.nil, t)
    else
      let ext := Ext path
      if ext = ".xlsx" ∨ ext = ".xls" then parseExcel ParseFloat env path t
      else (Outcome.nil, t)

/-- The walk of `filepath.Walk` over the entries it visits, in order: it stops at the
first call of the walk function that does not return nil. -/
def Walk (env : Env) : List Entry → List Event → Outcome × List Event
  | [], t => (Outcome.nil, t)
  | e :: rest, t =>
    match walkFunc ParseFloat env e.path e.info e.err t with
    | (Outcome.nil, t') => Walk env rest t'
    | (Outcome.failed x, t') => (Outcome.failed x, t')
    | (Outcome.fault, t') => (Outcome.fault, t')

/-- The condition under which `walkFunc` goes on to `parseExcel`. -/
def Dispatched (path : String) (fi : FileInfo) : Prop :=
  fi.IsDir = false ∧ HasPrefix (Base path) "~$" = false ∧
    (Ext path = ".xlsx" ∨ Ext path = ".xls")

/-- The value `parseExcel` marshals for the workbook `f`: what the parser chosen by the
label in `B2` returned. -/
def ParsedAs (f : File) (cfgs : Cfg) : Prop :=
  (f.GetCellValue "Sheet1" "B2" = Except.ok "列表" ∧
    Result.map Cfg.list (parseArray ParseFloat f) = Result.ok cfgs) ∨
  (f.GetCellValue "Sheet1" "B2" = Except.ok "单项" ∧
    Result.map Cfg.single (parseSingle ParseFloat f) = Result.ok cfgs)

end Walker

/-- An environment in which every workbook is `f` and no call of the system fails. -/
def envOf (dirParam pwd : String) (f : File) : Env :=
  { dirParam := dirParam, pwd := pwd, OpenFile := fun _ _ => Except.ok f,
    MkdirAll := fun _ _ => none, CreateFile := fun _ _ => none }

/-- An environment in which the workbook at a path is given by `books` and no other
call of the system fails. -/
def envBooks (dirParam pwd : String) (books : String → Except String File) : Env :=
  { dirParam := dirParam, pwd := pwd, OpenFile := fun _ name => books name,
    MkdirAll := fun _ _ => none, CreateFile := fun _ _ => none }

/-- The calls of one run of `parseExcel` to its end: the workbook `xlsxName` is opened
and read, the bytes `d` are written to `path`, and both files are closed. -/
def conversionCalls (xlsxName path : String) (d : Option JsonDoc) : List Event :=
  [Event.openFile xlsxName, Event.getCellValue xlsxName "Sheet1" "B1",
    Event.getCellValue xlsxName "Sheet1" "B2", Event.getRows xlsxName "Sheet1",
    Event.mkdirAll (Dir path), Event.createFile path, Event.write path d,
    Event.closeOut path, Event.close xlsxName]

/-- A sample tree under `/data`, converted from the working directory `/out`: the
workbook `a.xlsx` is a single-shape sheet named `cfg`, every other workbook has the
unsupported label `表格` in `B2`. -/
def sampleEnv : Env :=
  envBooks "/data" "/out" (fun name =>
    if name = "/data/a.xlsx" then
      Except.ok (fileOf [["", "cfg"], ["", "单项"], [], ["maxHP", "int", "100"]])
    else Except.ok (fileOf [["", "other"], ["", "表格"], []]))

/-- A `ParseFloat` for the texts `NaN`, `Inf` and `1.5`, on which it returns the bits
that `strconv.ParseFloat` returns (a NaN, the positive infinity, 1.5); used where the
cells with the label `"float"` hold these texts only. -/
def sampleFloat : String → Except NumError Nat := fun s =>
  if s = "NaN" then Except.ok 0x7FF8000000000001
  else if s = "Inf" then Except.ok 0x7FF0000000000000
  else if s = "1.5" then Except.ok 0x3FF8000000000000
  else Except.error ⟨"ParseFloat", s, ErrKind.invalid⟩

/-- A second sample tree under `/data`, converted from `/out`: the workbook `a.xlsx` is
a list-shape sheet named `cfg` with one column `hp` of label `float` and one data row
holding `NaN`; every other workbook has the unsupported label `表格` in `B2`. -/
def sampleNaNEnv : Env :=
  envBooks "/data" "/out" (fun name =>
    if name = "/data/a.xlsx" then
      Except.ok (fileOf [["", "cfg"], ["", "列表"], [], ["hp"], ["float"], ["NaN"]])
    else Except.ok (fileOf [["", "other"], ["", "表格"], []]))

/-! ## `Atoi` decodes decimal integers -/

theorem isDigit_eq (c : Char) : isDigit c = c.isDigit := by
  simp only [isDigit, Char.isDigit, Char.toNat, ge_iff_le, UInt32.le_def, Fin.le_def]
  rfl

theorem digitVal_le (c : Char) (h : isDigit c = true) : digitVal c ≤ 9 := by
  simp only [isDigit, Bool.and_eq_true, decide_eq_true_eq] at h
  simp only [digitVal]
  omega

theorem decFold_nil (n : Nat) : decFold n [] = n := rfl

theorem decFold_cons (n : Nat) (c : Char) (cs : List Char) :
    decFold n (c :: cs) = decFold (n * 10 + digitVal c) cs := rfl

theorem decFold_ge (cs : List Char) : ∀ n, n ≤ decFold n cs := by
  induction cs with
  | nil => intro n; exact Nat.le_refl n
  | cons c cs ih =>
    intro n
    rw [decFold_cons]
    have := ih (n * 10 + digitVal c)
    omega

theorem decFold_lt_pow (cs : List Char) (h : ∀ c ∈ cs, isDigit c = true) :
    ∀ n, decFold n cs < (n + 1) * 10 ^ cs.length := by
  induction cs with
  | nil => intro n; simp [decFold_nil]
  | cons c cs ih =>
    intro n
    have hd := digitVal_le c (h c (List.mem_cons_self _ _))
    have h1 := ih (fun x hx => h x (List.mem_cons_of_mem _ hx)) (n * 10 + digitVal c)
    rw [decFold_cons]
    have h2 : (n * 10 + digitVal c + 1) * 10 ^ cs.length ≤ ((n + 1) * 10) * 10 ^ cs.length :=
      Nat.mul_le_mul_right _ (by omega)
    have h3 : (n + 1) * 10 ^ (c :: cs).length = ((n + 1) * 10) * 10 ^ cs.length := by
      rw [List.length_cons, Nat.pow_succ]
      ring
    omega

theorem decimalValue_eq (ds : List Char) : decimalValue ds = decFold 0 ds := rfl

theorem wrapInt64_of_range (z : Int) (h1 : -(2 : Int) ^ 63 ≤ z) (h2 : z < (2 : Int) ^ 63) :
    wrapInt64 z = z := by
  simp only [wrapInt64]
  omega

theorem atoiLoop_none (cs : List Char) (h : ¬ ∀ c ∈ cs, isDigit c = true) :
    ∀ z, atoiLoop cs z = none := by
  induction cs with
  | nil => exact absurd (by simp) h
  | cons c cs ih =>
    intro z
    by_cases hc : isDigit c = true
    · have : ¬ ∀ x ∈ cs, isDigit x = true := by
        intro hall
        apply h
        intro x hx
        rcases List.mem_cons.1 hx with rfl | hx
        · exact hc
        · exact hall x hx
      simp only [atoiLoop, hc, if_true]
      exact ih this _
    · simp [atoiLoop, hc]

theorem atoiLoop_some (cs : List Char) (h : ∀ c ∈ cs, isDigit c = true) :
    ∀ n : Nat, decFold n cs < 2 ^ 63 → atoiLoop cs (n : Int) = some (decFold n cs : Int) := by
  induction cs with
  | nil => intro n _; rfl
  | cons c cs ih =>
    intro n hn
    rw [decFold_cons] at hn ⊢
    have hc := h c (List.mem_cons_self _ _)
    have hge := decFold_ge cs (n * 10 + digitVal c)
    have hw : wrapInt64 ((n : Int) * 10 + (digitVal c : Nat)) = ((n * 10 + digitVal c : Nat) : Int) := by
      rw [wrapInt64_of_range]
      · push_cast; rfl
      · have : (0 : Int) ≤ (n : Int) * 10 + (digitVal c : Nat) := by positivity
        omega
      · have : ((n * 10 + digitVal c : Nat) : Int) < 2 ^ 63 := by
          have : n * 10 + digitVal c < 2 ^ 63 := by omega
          exact_mod_cast this
        push_cast at this
        exact this
    simp only [atoiLoop, hc, if_true, hw]
    exact ih (fun x hx => h x (List.mem_cons_of_mem _ hx)) _ hn

theorem parseUintLoop_ok (cs : List Char) (h : ∀ c ∈ cs, isDigit c = true) :
    ∀ n : Nat, decFold n cs < 2 ^ 64 → parseUintLoop cs n = (decFold n cs, none) := by
  induction cs with
  | nil => intro n _; rfl
  | cons c cs ih =>
    intro n hn
    rw [decFold_cons] at hn ⊢
    have hc := h c (List.mem_cons_self _ _)
    have hd := digitVal_le c hc
    have hge := decFold_ge cs (n * 10 + digitVal c)
    have h1 : ¬ n ≥ uintCutoff := by
      simp only [uintCutoff]
      omega
    have h2 : n * 10 % 2 ^ 64 = n * 10 := Nat.mod_eq_of_lt (by omega)
    have h3 : (n * 10 + digitVal c) % 2 ^ 64 = n * 10 + digitVal c := Nat.mod_eq_of_lt (by omega)
    have h4 : ¬ (n * 10 + digitVal c < n * 10 ∨ n * 10 + digitVal c > maxVal) := by
      simp only [maxVal]
      omega
    simp only [parseUintLoop, hc, if_true, h1, if_false, h2, h3, h4]
    exact ih (fun x hx => h x (List.mem_cons_of_mem _ hx)) _ hn

theorem parseUintLoop_fail (cs : List Char) :
    ∀ n : Nat, n < 2 ^ 64 → ¬ ((∀ c ∈ cs, isDigit c = true) ∧ decFold n cs < 2 ^ 64) →
      (parseUintLoop cs n).2 = some ErrKind.invalid ∨
        parseUintLoop cs n = (maxVal, some ErrKind.range) := by
  induction cs with
  | nil =>
    intro n hn h
    exact absurd ⟨by simp, hn⟩ h
  | cons c cs ih =>
    intro n hn h
    by_cases hc : isDigit c = true
    · have hd := digitVal_le c hc
      by_cases h1 : n ≥ uintCutoff
      · right
        simp [parseUintLoop, hc, h1]
      · have h1' : n < 1844674407370955162 := by
          simp only [uintCutoff] at h1
          omega
        have h2 : n * 10 % 2 ^ 64 = n * 10 := Nat.mod_eq_of_lt (by omega)
        by_cases h3 : n * 10 + digitVal c < 2 ^ 64
        · have h3' : (n * 10 + digitVal c) % 2 ^ 64 = n * 10 + digitVal c := Nat.mod_eq_of_lt h3
          have h4 : ¬ (n * 10 + digitVal c < n * 10 ∨ n * 10 + digitVal c > maxVal) := by
            simp only [maxVal]
            omega
          simp only [parseUintLoop, hc, if_true, h1, if_false, h2, h3', h4]
          refine ih _ h3 ?_
          rintro ⟨ha, hb⟩
          apply h
          refine ⟨?_, by rw [decFold_cons]; exact hb⟩
          intro x hx
          rcases List.mem_cons.1 hx with rfl | hx
          · exact hc
          · exact ha x hx
        · right
          have h4 : (n * 10 + digitVal c) % 2 ^ 64 < n * 10 := by omega
          simp only [parseUintLoop, hc, if_true, h1, if_false, h2, h4, true_or]
    · left
      simp [parseUintLoop, hc]

theorem ParseUint_ok (s : List Char) (hne : s ≠ []) (h : ∀ c ∈ s, isDigit c = true)
    (hv : decFold 0 s < 2 ^ 64) : ParseUint s = (decFold 0 s, none) := by
  simp only [ParseUint, hne, if_false]
  exact parseUintLoop_ok s h 0 hv

theorem ParseUint_fail (s : List Char)
    (h : ¬ (s ≠ [] ∧ (∀ c ∈ s, isDigit c = true) ∧ decFold 0 s < 2 ^ 64)) :
    (ParseUint s).2 = some ErrKind.invalid ∨ ParseUint s = (maxVal, some ErrKind.range) := by
  by_cases hne : s = []
  · left
    simp [ParseUint, hne]
  · simp only [ParseUint, hne, if_false]
    exact parseUintLoop_fail s 0 (by decide) (fun hh => h ⟨hne, hh.1, hh.2⟩)

theorem parseIntRange_ok_iff (neg : Bool) (s : List Char) (n : Int) :
    parseIntRange neg s = Except.ok n ↔ SignedDigits neg s n := by
  by_cases hG : s ≠ [] ∧ (∀ c ∈ s, isDigit c = true) ∧ decFold 0 s < 2 ^ 64
  · obtain ⟨hne, hall, hv⟩ := hG
    have hPU := ParseUint_ok s hne hall hv
    simp only [parseIntRange, hPU, SignedDigits]
    cases neg with
    | false =>
      by_cases hr : decFold 0 s ≥ 2 ^ 63
      · simp only [hr, and_self, if_true]
        constructor
        · intro h; exact absurd h (by simp)
        · rintro ⟨_, _, h1, _, h3⟩
          simp only [Bool.false_eq_true, if_false] at h1
          omega
      · have hw : wrapInt64 (decFold 0 s : Nat) = (decFold 0 s : Nat) := by
          apply wrapInt64_of_range <;> omega
        simp only [hr, and_false, if_false, Bool.false_eq_true, false_and, hw, Except.ok.injEq]
        constructor
        · intro h
          refine ⟨hne, hall, h.symm, ?_, ?_⟩ <;> omega
        · rintro ⟨_, _, h1, _⟩
          exact h1.symm
    | true =>
      by_cases hr : decFold 0 s > 2 ^ 63
      · simp only [hr, and_self, if_true, Bool.true_eq_false, false_and, if_false]
        constructor
        · intro h; exact absurd h (by simp)
        · rintro ⟨_, _, h1, h2, _⟩
          omega
      · have hw : wrapInt64 (-wrapInt64 (decFold 0 s : Nat)) = -((decFold 0 s : Nat) : Int) := by
          simp only [wrapInt64]
          omega
        simp only [hr, and_false, if_false, Bool.true_eq_false, false_and, if_true, hw,
          Except.ok.injEq]
        constructor
        · intro h
          refine ⟨hne, hall, h.symm, ?_, ?_⟩ <;> omega
        · rintro ⟨_, _, h1, _⟩
          exact h1.symm
  · have hno : ¬ SignedDigits neg s n := by
      rintro ⟨h1, h2, h3, h4, h5⟩
      apply hG
      refine ⟨h1, h2, ?_⟩
      cases neg <;> simp at h3 <;> omega
    refine ⟨fun h => ?_, fun h => absurd h hno⟩
    exfalso
    rcases ParseUint_fail s hG with hf | hf
    · cases hr : ParseUint s with
      | mk a b =>
        rw [hr] at hf
        simp only at hf
        subst hf
        simp [parseIntRange, hr] at h
    · simp only [parseIntRange, hf, maxVal] at h
      cases neg <;> simp at h

theorem ParseInt_ok_iff (s0 : List Char) (n : Int) :
    ParseInt s0 = Except.ok n ↔ SignedText s0 n := by
  by_cases hnil : s0 = []
  · subst hnil
    simp [ParseInt, SignedText, SignedDigits]
  · simp only [ParseInt, hnil, if_false, SignedText]
    split
    · exact parseIntRange_ok_iff false _ n
    · split
      · exact parseIntRange_ok_iff true _ n
      · exact parseIntRange_ok_iff false _ n

theorem atoiLoop_zero (s : List Char) (hlen : s.length ≤ 18) :
    (∀ c ∈ s, isDigit c = true) →
      atoiLoop s 0 = some (decFold 0 s : Int) ∧ decFold 0 s < 2 ^ 63 := by
  intro hall
  have h1 := decFold_lt_pow s hall 0
  have h2 : 10 ^ s.length ≤ 10 ^ 18 := Nat.pow_le_pow_right (by decide) hlen
  have h3 : decFold 0 s < 2 ^ 63 := by omega
  exact ⟨by simpa using atoiLoop_some s hall 0 h3, h3⟩

/-- The part of the fast path after the sign is picked off. -/
theorem atoiFast_core (neg : Bool) (s : List Char) (hne : s ≠ []) (hlen : s.length ≤ 18)
    (n : Int) :
    (match atoiLoop s 0 with
      | none => Except.error ErrKind.invalid
      | some m => Except.ok (if neg = true then wrapInt64 (-m) else m)) = Except.ok n
      ↔ SignedDigits neg s n := by
  by_cases hall : ∀ c ∈ s, isDigit c = true
  · obtain ⟨h1, h2⟩ := atoiLoop_zero s hlen hall
    rw [h1]
    simp only [SignedDigits, Except.ok.injEq]
    cases neg with
    | false =>
      simp only [Bool.false_eq_true, if_false]
      constructor
      · intro h
        refine ⟨hne, hall, h.symm, ?_, ?_⟩ <;> omega
      · rintro ⟨_, _, h, _⟩
        exact h.symm
    | true =>
      have hw : wrapInt64 (-((decFold 0 s : Nat) : Int)) = -((decFold 0 s : Nat) : Int) := by
        apply wrapInt64_of_range <;> omega
      simp only [if_true, hw]
      constructor
      · intro h
        refine ⟨hne, hall, h.symm, ?_, ?_⟩ <;> omega
      · rintro ⟨_, _, h, _⟩
        exact h.symm
  · rw [atoiLoop_none s hall]
    simp only [SignedDigits]
    constructor
    · intro h; exact absurd h (by simp)
    · rintro ⟨_, h, _⟩
      exact absurd h hall

theorem atoiFast_ok_iff (s0 : List Char) (hne : s0 ≠ []) (hlen : s0.length < 19) (n : Int) :
    atoiFast s0 = Except.ok n ↔ SignedText s0 n := by
  cases s0 with
  | nil => exact absurd rfl hne
  | cons c cs =>
    simp only [List.length_cons] at hlen
    by_cases hplus : c = '+'
    · subst hplus
      by_cases hcs : cs = []
      · subst hcs
        simp [atoiFast, SignedText, SignedDigits]
      · have hpos : ¬ cs.length < 1 := by
          have := List.length_pos.2 hcs
          omega
        have := atoiFast_core false cs hcs (by omega) n
        simpa [atoiFast, SignedText, hpos] using this
    · by_cases hminus : c = '-'
      · subst hminus
        by_cases hcs : cs = []
        · subst hcs
          simp [atoiFast, SignedText, SignedDigits]
        · have hpos : ¬ cs.length < 1 := by
            have := List.length_pos.2 hcs
            omega
          have := atoiFast_core true cs hcs (by omega) n
          simpa [atoiFast, SignedText, hpos] using this
      · have := atoiFast_core false (c :: cs) (by simp) (by simp only [List.length_cons]; omega) n
        simpa [atoiFast, SignedText, hplus, hminus] using this

theorem signedText_iff (s0 : List Char) (n : Int) :
    (∃ sign digits : List Char, s0 = sign ++ digits ∧
      (sign = [] ∨ sign = ['+'] ∨ sign = ['-']) ∧
      digits ≠ [] ∧ (∀ c ∈ digits, c.isDigit = true) ∧
      n = (if sign = ['-'] then -(decimalValue digits : Int) else (decimalValue digits : Int)) ∧
      -(2 : Int) ^ 63 ≤ n ∧ n < (2 : Int) ^ 63) ↔ SignedText s0 n := by
  constructor
  · rintro ⟨sign, digits, hs, hsign, hne, hall, hn, hlo, hhi⟩
    have hall' : ∀ c ∈ digits, isDigit c = true := fun c hc => by
      rw [isDigit_eq]; exact hall c hc
    rcases hsign with rfl | rfl | rfl
    · simp only [List.nil_append] at hs
      subst hs
      cases s0 with
      | nil => exact absurd rfl hne
      | cons c cs =>
        have hc := hall' c (List.mem_cons_self _ _)
        have hplus : c ≠ '+' := by
          rintro rfl
          exact absurd hc (by decide)
        have hminus : c ≠ '-' := by
          rintro rfl
          exact absurd hc (by decide)
        simp only [SignedText, List.head?_cons, Option.some.injEq, hplus, hminus, if_false]
        exact ⟨hne, hall', by simpa [decimalValue_eq] using hn, hlo, hhi⟩
    · subst hs
      simp only [SignedText, List.singleton_append, List.head?_cons, if_true, List.tail_cons]
      exact ⟨hne, hall', by simpa [decimalValue_eq] using hn, hlo, hhi⟩
    · subst hs
      have : ¬ (some '-' = some '+') := by decide
      simp only [SignedText, List.singleton_append, List.head?_cons, this, if_false, if_true,
        List.tail_cons]
      exact ⟨hne, hall', by simpa [decimalValue_eq] using hn, hlo, hhi⟩
  · intro h
    simp only [SignedText] at h
    split at h
    · rename_i hh
      obtain ⟨hne, hall, hn, hlo, hhi⟩ := h
      refine ⟨['+'], s0.tail, ?_, Or.inr (Or.inl rfl), hne,
        fun c hc => by rw [← isDigit_eq]; exact hall c hc,
        by simpa [decimalValue_eq] using hn, hlo, hhi⟩
      cases s0 with
      | nil => simp at hh
      | cons c cs =>
        simp only [List.head?_cons, Option.some.injEq] at hh
        subst hh
        rfl
    · split at h
      · rename_i hh
        obtain ⟨hne, hall, hn, hlo, hhi⟩ := h
        refine ⟨['-'], s0.tail, ?_, Or.inr (Or.inr rfl), hne,
          fun c hc => by rw [← isDigit_eq]; exact hall c hc,
          by simpa [decimalValue_eq] using hn, hlo, hhi⟩
        cases s0 with
        | nil => simp at hh
        | cons c cs =>
          simp only [List.head?_cons, Option.some.injEq] at hh
          subst hh
          rfl
      · obtain ⟨hne, hall, hn, hlo, hhi⟩ := h
        exact ⟨[], s0, rfl, Or.inl rfl, hne,
          fun c hc => by rw [← isDigit_eq]; exact hall c hc,
          by simpa [decimalValue_eq] using hn, hlo, hhi⟩

theorem length_le_utf8ByteSize (s : String) : s.data.length ≤ s.utf8ByteSize := by
  have key : ∀ cs : List Char, cs.length ≤ String.utf8ByteSize.go cs := by
    intro cs
    induction cs with
    | nil => exact Nat.le_refl 0
    | cons c cs ih =>
      have := Char.utf8Size_pos c
      simp only [List.length_cons, String.utf8ByteSize.go]
      omega
  cases s with
  | mk cs => exact key cs

theorem Atoi_ok_iff (s : String) (n : Int) : Atoi s = Except.ok n ↔ IsDecimalInt s n := by
  have hspec : IsDecimalInt s n ↔ SignedText s.data n := signedText_iff s.data n
  rw [hspec]
  have hr : ∀ r : Except ErrKind Int,
      ((match r with
        | Except.ok m => Except.ok m
        | Except.error k => Except.error ⟨"Atoi", s, k⟩) : Except NumError Int) = Except.ok n
        ↔ r = Except.ok n := by
    intro r
    cases r <;> simp
  simp only [Atoi]
  rw [hr]
  by_cases hfast : 0 < s.utf8ByteSize ∧ s.utf8ByteSize < 19
  · have hl := length_le_utf8ByteSize s
    have hne : s.data ≠ [] := by
      intro h
      have : s.utf8ByteSize = 0 := by
        cases s with
        | mk cs =>
          simp only at h
          subst h
          rfl
      omega
    simp only [hfast, and_self, if_true]
    exact atoiFast_ok_iff s.data hne (by omega) n
  · simp only [hfast, if_false]
    exact ParseInt_ok_iff s.data n

theorem Atoi_total (s : String) :
    (∃ n, Atoi s = Except.ok n) ∨ ∃ k, Atoi s = Except.error ⟨"Atoi", s, k⟩ := by
  simp only [Atoi]
  cases (if 0 < s.utf8ByteSize ∧ s.utf8ByteSize < 19 then atoiFast s.data else ParseInt s.data) with
  | ok m => exact Or.inl ⟨m, rfl⟩
  | error k => exact Or.inr ⟨k, rfl⟩

/-! ## Maps -/

theorem GoMap.get_set (m : GoMap) (k : String) (v : Value) (k' : String) :
    GoMap.get (GoMap.set m k v) k' = if k = k' then some v else GoMap.get m k' := by
  induction m with
  | nil => simp [GoMap.set, GoMap.get]
  | cons p m ih =>
    obtain ⟨a, b⟩ := p
    by_cases hak : a = k
    · subst hak
      by_cases hk : a = k' <;> simp [GoMap.set, GoMap.get, hk]
    · by_cases hk : k = k'
      · subst hk
        simp [GoMap.set, GoMap.get, hak, ih]
      · simp [GoMap.set, GoMap.get, hak, ih, hk]

theorem GoMap.mem_keys_iff (m : GoMap) (k : String) :
    k ∈ GoMap.keys m ↔ ∃ v, GoMap.get m k = some v := by
  induction m with
  | nil => simp [GoMap.keys, GoMap.get]
  | cons p m ih =>
    obtain ⟨a, b⟩ := p
    by_cases hak : a = k
    · simp [GoMap.keys, GoMap.get, hak]
    · have hka : ¬ k = a := fun h => hak h.symm
      simp only [GoMap.keys] at ih
      simp [GoMap.keys, GoMap.get, hak, hka, ih]

theorem GoMap.nodup_keys_set (m : GoMap) (k : String) (v : Value)
    (h : (GoMap.keys m).Nodup) : (GoMap.keys (GoMap.set m k v)).Nodup := by
  induction m with
  | nil => simp [GoMap.set, GoMap.keys]
  | cons p m ih =>
    obtain ⟨a, b⟩ := p
    simp only [GoMap.keys, List.map_cons, List.nodup_cons] at h
    by_cases hak : a = k
    · subst hak
      simpa [GoMap.set, GoMap.keys] using h
    · have hmem : a ∉ GoMap.keys (GoMap.set m k v) := by
        rw [GoMap.mem_keys_iff]
        rintro ⟨w, hw⟩
        rw [GoMap.get_set] at hw
        have hka : ¬ k = a := fun h => hak h.symm
        simp only [hka, if_false] at hw
        exact h.1 ((GoMap.mem_keys_iff m a).2 ⟨w, hw⟩)
      have := ih h.2
      simp only [GoMap.keys] at this hmem
      simp [GoMap.set, GoMap.keys, hak, this, hmem]

theorem GoMap.nodup_keys_setAll (ps : List (String × Value)) (m : GoMap)
    (h : (GoMap.keys m).Nodup) : (GoMap.keys (GoMap.setAll m ps)).Nodup := by
  induction ps generalizing m with
  | nil => simpa [GoMap.setAll] using h
  | cons p ps ih => exact ih _ (GoMap.nodup_keys_set m p.1 p.2 h)

theorem GoMap.get_setAll_of_not_mem (ps : List (String × Value)) (m : GoMap) (k : String)
    (h : ∀ p ∈ ps, p.1 ≠ k) : GoMap.get (GoMap.setAll m ps) k = GoMap.get m k := by
  induction ps generalizing m with
  | nil => rfl
  | cons p ps ih =>
    have h1 : GoMap.get (GoMap.setAll (GoMap.set m p.1 p.2) ps) k
        = GoMap.get (GoMap.set m p.1 p.2) k := ih _ (fun q hq => h q (List.mem_cons_of_mem _ hq))
    have h2 : p.1 ≠ k := h p (List.mem_cons_self _ _)
    show GoMap.get (GoMap.setAll (GoMap.set m p.1 p.2) ps) k = GoMap.get m k
    rw [h1, GoMap.get_set]
    simp [h2]

/-- Last assignment wins: the value under `k` is the one of the last pair with key `k`. -/
theorem GoMap.get_setAll_last (ps : List (String × Value)) (m : GoMap) (j : Nat)
    (k : String) (v : Value) (hj : ps[j]? = some (k, v))
    (hlast : ∀ j' p, j < j' → ps[j']? = some p → p.1 ≠ k) :
    GoMap.get (GoMap.setAll m ps) k = some v := by
  induction ps generalizing m j with
  | nil => simp at hj
  | cons p ps ih =>
    cases j with
    | zero =>
      simp only [List.getElem?_cons_zero, Option.some.injEq] at hj
      subst hj
      have hno : ∀ q ∈ ps, q.1 ≠ k := by
        intro q hq
        obtain ⟨n, hn⟩ := List.getElem?_of_mem hq
        exact hlast (n + 1) q (Nat.succ_pos n) (by simpa using hn)
      show GoMap.get (GoMap.setAll (GoMap.set m k v) ps) k = some v
      rw [GoMap.get_setAll_of_not_mem ps _ k hno, GoMap.get_set]
      simp
    | succ j =>
      show GoMap.get (GoMap.setAll (GoMap.set m p.1 p.2) ps) k = some v
      refine ih _ j (by simpa using hj) ?_
      intro j' q hjj hq
      exact hlast (j' + 1) q (Nat.succ_lt_succ hjj) (by simpa using hq)

theorem GoMap.mem_keys_setAll (ps : List (String × Value)) (m : GoMap) (k : String) :
    k ∈ GoMap.keys (GoMap.setAll m ps) ↔ k ∈ GoMap.keys m ∨ ∃ p ∈ ps, p.1 = k := by
  induction ps generalizing m with
  | nil => simp [GoMap.setAll]
  | cons p ps ih =>
    have h1 := ih (GoMap.set m p.1 p.2)
    have h2 : k ∈ GoMap.keys (GoMap.set m p.1 p.2) ↔ p.1 = k ∨ k ∈ GoMap.keys m := by
      rw [GoMap.mem_keys_iff, GoMap.mem_keys_iff]
      simp only [GoMap.get_set]
      by_cases hk : p.1 = k <;> simp [hk]
    show k ∈ GoMap.keys (GoMap.setAll (GoMap.set m p.1 p.2) ps) ↔ _
    rw [h1, h2]
    simp only [List.mem_cons, exists_eq_or_imp]
    tauto

/-! ## The loops of `parseArray` -/

section ParserLemmas

variable (ParseFloat : String → Except NumError Nat)

theorem recordLoop_ok (fields types row : List String) (idx : Nat) :
    ∀ (n i : Nat) (record m : GoMap),
      recordLoop ParseFloat fields types row idx n i record = Result.ok m →
      ∃ ps : List (String × Value), ps.length = n ∧ m = GoMap.setAll record ps ∧
        ∀ j p, ps[j]? = some p → ∃ cell typ, row[i + j]? = some cell ∧
          types[i + j]? = some typ ∧ fields[i + j]? = some p.1 ∧
          conv ParseFloat cell typ = Except.ok p.2 := by
  intro n
  induction n with
  | zero =>
    intro i record m h
    simp only [recordLoop, Result.ok.injEq] at h
    exact ⟨[], rfl, by simp [GoMap.setAll, h], by simp⟩
  | succ n ih =>
    intro i record m h
    unfold recordLoop at h
    split at h
    · rename_i cell typ hcell htyp
      split at h
      · exact absurd h (by simp)
      · rename_i value hconv
        split at h
        · rename_i name hname
          obtain ⟨ps, hlen, hm, hps⟩ := ih (i + 1) _ m h
          refine ⟨(name, value) :: ps, by simp [hlen], by simpa [GoMap.setAll] using hm, ?_⟩
          intro j p hj
          cases j with
          | zero =>
            simp only [List.getElem?_cons_zero, Option.some.injEq] at hj
            subst hj
            exact ⟨cell, typ, hcell, htyp, hname, hconv⟩
          | succ j =>
            have := hps j p (by simpa using hj)
            have e : i + (j + 1) = i + 1 + j := by omega
            rw [e]
            exact this
        · exact absurd h (by simp)
    · exact absurd h (by simp)

theorem recordLoop_total (fields types row : List String) (idx : Nat) :
    ∀ (n i : Nat) (record : GoMap),
      i + n ≤ row.length → i + n ≤ types.length → i + n ≤ fields.length →
      (∀ j cell typ, i ≤ j → j < i + n → row[j]? = some cell → types[j]? = some typ →
        ∃ v, conv ParseFloat cell typ = Except.ok v) →
      ∃ m, recordLoop ParseFloat fields types row idx n i record = Result.ok m := by
  intro n
  induction n with
  | zero => intro i record _ _ _ _; exact ⟨record, rfl⟩
  | succ n ih =>
    intro i record hr ht hf hall
    have hri : i < row.length := by omega
    have hti : i < types.length := by omega
    have hfi : i < fields.length := by omega
    obtain ⟨v, hv⟩ := hall i row[i] types[i] (Nat.le_refl i) (by omega)
      (List.getElem?_eq_getElem hri) (List.getElem?_eq_getElem hti)
    obtain ⟨m, hm⟩ := ih (i + 1) (GoMap.set record fields[i] v) (by omega) (by omega) (by omega)
      (fun j cell typ h1 h2 => hall j cell typ (by omega) (by omega))
    refine ⟨m, ?_⟩
    unfold recordLoop
    simp only [List.getElem?_eq_getElem hri, List.getElem?_eq_getElem hti,
      List.getElem?_eq_getElem hfi, hv]
    exact hm

theorem recordLoop_first_failure (fields types row : List String) (idx : Nat) :
    ∀ (n i : Nat) (record : GoMap) (c : Nat) (cell typ : String) (e : NumError),
      i + n ≤ row.length → i + n ≤ types.length → i + n ≤ fields.length →
      i ≤ c → c < i + n → row[c]? = some cell → types[c]? = some typ →
      conv ParseFloat cell typ = Except.error e →
      (∀ j cell' typ', i ≤ j → j < c → row[j]? = some cell' → types[j]? = some typ' →
        ∃ v, conv ParseFloat cell' typ' = Except.ok v) →
      recordLoop ParseFloat fields types row idx n i record
        = Result.err (ParseError.cellConversion (idx + 6) (c + 1) e) := by
  intro n
  induction n with
  | zero => intro i record c cell typ e _ _ _ h1 h2; omega
  | succ n ih =>
    intro i record c cell typ e hr ht hf hic hcn hcell htyp hfail hleft
    have hri : i < row.length := by omega
    have hti : i < types.length := by omega
    have hfi : i < fields.length := by omega
    by_cases hci : c = i
    · subst hci
      unfold recordLoop
      simp only [hcell, htyp, hfail]
    · obtain ⟨v, hv⟩ := hleft i row[i] types[i] (Nat.le_refl i) (by omega)
        (List.getElem?_eq_getElem hri) (List.getElem?_eq_getElem hti)
      have := ih (i + 1) (GoMap.set record fields[i] v) c cell typ e (by omega) (by omega)
        (by omega) (by omega) (by omega) hcell htyp hfail
        (fun j cell' typ' h1 h2 => hleft j cell' typ' (by omega) h2)
      unfold recordLoop
      simp only [List.getElem?_eq_getElem hri, List.getElem?_eq_getElem hti,
        List.getElem?_eq_getElem hfi, hv]
      exact this

theorem rowRecord_of_valid (fields types row : List String) (idx : Nat)
    (hlen : fields.length = types.length) (h : ValidRow ParseFloat fields types row) :
    ∃ m, rowRecord ParseFloat fields types row idx = Result.ok m := by
  obtain ⟨h1, h2⟩ := h
  obtain ⟨m, hm⟩ := recordLoop_total ParseFloat fields types row idx fields.length 0 []
    (by omega) (by omega) (by omega) (fun j cell typ _ _ => h2 j cell typ)
  exact ⟨m, by simp [rowRecord, h1, hm]⟩

theorem arrayLoop_ok (fields types : List String) :
    ∀ (rs : List (List String)) (idx : Nat) (acc cfgs : List GoMap),
      arrayLoop ParseFloat fields types rs idx acc = Result.ok cfgs →
      ∃ recs : List GoMap, cfgs = acc ++ recs ∧ recs.length = rs.length ∧
        ∀ j row, rs[j]? = some row →
          ∃ r, recs[j]? = some r ∧ rowRecord ParseFloat fields types row (idx + j) = Result.ok r := by
  intro rs
  induction rs with
  | nil =>
    intro idx acc cfgs h
    simp only [arrayLoop, Result.ok.injEq] at h
    exact ⟨[], by simp [h], rfl, by simp⟩
  | cons row rest ih =>
    intro idx acc cfgs h
    unfold arrayLoop at h
    split at h
    · rename_i record hrec
      obtain ⟨recs, hc, hl, hj⟩ := ih (idx + 1) _ cfgs h
      refine ⟨record :: recs, by simp [hc], by simp [hl], ?_⟩
      intro j r hr
      cases j with
      | zero =>
        simp only [List.getElem?_cons_zero, Option.some.injEq] at hr
        subst hr
        exact ⟨record, by simp, hrec⟩
      | succ j =>
        obtain ⟨r', h1, h2⟩ := hj j r (by simpa using hr)
        refine ⟨r', by simpa using h1, ?_⟩
        have e : idx + (j + 1) = idx + 1 + j := by omega
        rw [e]
        exact h2
    · exact absurd h (by simp)
    · exact absurd h (by simp)

/-- The outer loop stops at the first row whose body returns an error. -/
theorem arrayLoop_first_error (fields types : List String) :
    ∀ (rs : List (List String)) (idx : Nat) (acc : List GoMap) (k : Nat)
      (bad : List String) (e : ParseError),
      rs[k]? = some bad →
      (∀ j row, j < k → rs[j]? = some row →
        ∃ r, rowRecord ParseFloat fields types row (idx + j) = Result.ok r) →
      rowRecord ParseFloat fields types bad (idx + k) = Result.err e →
      arrayLoop ParseFloat fields types rs idx acc = Result.err e := by
  intro rs
  induction rs with
  | nil => intro idx acc k bad e h; simp at h
  | cons row rest ih =>
    intro idx acc k bad e hk hgood hbad
    cases k with
    | zero =>
      simp only [List.getElem?_cons_zero, Option.some.injEq] at hk
      subst hk
      unfold arrayLoop
      simp only [Nat.add_zero] at hbad
      rw [hbad]
    | succ k =>
      obtain ⟨r, hr⟩ := hgood 0 row (Nat.succ_pos k) (by simp)
      simp only [Nat.add_zero] at hr
      unfold arrayLoop
      rw [hr]
      refine ih (idx + 1) _ k bad e (by simpa using hk) ?_ ?_
      · intro j row' hj hrow
        have := hgood (j + 1) row' (by omega) (by simpa using hrow)
        have e' : idx + (j + 1) = idx + 1 + j := by omega
        rw [← e']
        exact this
      · have e' : idx + (k + 1) = idx + 1 + k := by omega
        rw [← e']
        exact hbad

/-! ## The loop of `parseSingle` -/

theorem singleLoop_ok :
    ∀ (rs : List (List String)) (idx : Nat) (record m : GoMap),
      singleLoop ParseFloat rs idx record = Result.ok m →
      ∃ ps : List (String × Value), ps.length = rs.length ∧ m = GoMap.setAll record ps ∧
        ∀ (j : Nat) (p : String × Value), ps[j]? = some p →
          ∃ row cell typ, rs[j]? = some row ∧
            row[0]? = some p.1 ∧ row[1]? = some typ ∧ row[2]? = some cell ∧
            conv ParseFloat cell typ = Except.ok p.2 := by
  intro rs
  induction rs with
  | nil =>
    intro idx record m h
    simp only [singleLoop, Result.ok.injEq] at h
    exact ⟨[], rfl, by simp [GoMap.setAll, h], by simp⟩
  | cons row rest ih =>
    intro idx record m h
    rw [singleLoop] at h
    by_cases hlt : row.length < 3
    · simp [hlt] at h
    · simp only [hlt, if_false] at h
      cases hcell : row[2]? with
      | none => simp [hcell] at h
      | some cell =>
        cases htyp : row[1]? with
        | none => simp [hcell, htyp] at h
        | some typ =>
          cases hconv : conv ParseFloat cell typ with
          | error e => simp [hcell, htyp, hconv] at h
          | ok value =>
            cases hkey : row[0]? with
            | none => simp [hcell, htyp, hconv, hkey] at h
            | some key =>
              simp only [hcell, htyp, hconv, hkey] at h
              obtain ⟨ps, hlen, hm, hps⟩ := ih (idx + 1) _ m h
              refine ⟨(key, value) :: ps, by simp [hlen], by simpa [GoMap.setAll] using hm, ?_⟩
              intro j p hj
              cases j with
              | zero =>
                simp only [List.getElem?_cons_zero, Option.some.injEq] at hj
                subst hj
                exact ⟨row, cell, typ, by simp, hkey, htyp, hcell, hconv⟩
              | succ j =>
                obtain ⟨row', cell', typ', h1, h2⟩ := hps j p (by simpa using hj)
                exact ⟨row', cell', typ', by simpa using h1, h2⟩

/-- A fully valid row lets the loop of `parseSingle` go on to the next row. -/
theorem singleLoop_step (row : List String) (rest : List (List String)) (idx : Nat)
    (record : GoMap) (h : ValidTriple ParseFloat row) :
    ∃ record', singleLoop ParseFloat (row :: rest) idx record
      = singleLoop ParseFloat rest (idx + 1) record' := by
  obtain ⟨h3, hc⟩ := h
  have h0 : 0 < row.length := by omega
  have h1 : 1 < row.length := by omega
  have h2 : 2 < row.length := by omega
  obtain ⟨v, hv⟩ := hc row[2] row[1] (List.getElem?_eq_getElem h2) (List.getElem?_eq_getElem h1)
  refine ⟨GoMap.set record row[0] v, ?_⟩
  have hlt : ¬ row.length < 3 := by omega
  rw [singleLoop]
  simp only [hlt, if_false, List.getElem?_eq_getElem h2, List.getElem?_eq_getElem h1,
    List.getElem?_eq_getElem h0, hv]

theorem singleLoop_skip :
    ∀ (rs : List (List String)) (idx : Nat) (record : GoMap) (k : Nat), k ≤ rs.length →
      (∀ j row, j < k → rs[j]? = some row → ValidTriple ParseFloat row) →
      ∃ record', singleLoop ParseFloat rs idx record
        = singleLoop ParseFloat (rs.drop k) (idx + k) record' := by
  intro rs
  induction rs with
  | nil => intro idx record k hk _; exact ⟨record, by simp at hk; simp [hk]⟩
  | cons row rest ih =>
    intro idx record k hk hgood
    cases k with
    | zero => exact ⟨record, by simp⟩
    | succ k =>
      obtain ⟨r1, h1⟩ := singleLoop_step ParseFloat row rest idx record
        (hgood 0 row (Nat.succ_pos k) (by simp))
      obtain ⟨r2, h2⟩ := ih (idx + 1) r1 k (by simpa using hk)
        (fun j row' hj hrow => hgood (j + 1) row' (by omega) (by simpa using hrow))
      refine ⟨r2, ?_⟩
      rw [h1, h2]
      have e : idx + 1 + k = idx + (k + 1) := by omega
      simp [e]

theorem singleLoop_rowTooShort :
    ∀ (rs : List (List String)) (idx : Nat) (record : GoMap) (n : Nat),
      singleLoop ParseFloat rs idx record = Result.err (ParseError.rowTooShort n) →
      ∃ j row, n = idx + j + 4 ∧ rs[j]? = some row ∧ row.length < 3 := by
  intro rs
  induction rs with
  | nil => intro idx record n h; simp [singleLoop] at h
  | cons row rest ih =>
    intro idx record n h
    rw [singleLoop] at h
    by_cases hlt : row.length < 3
    · simp only [hlt, if_true, Result.err.injEq, ParseError.rowTooShort.injEq] at h
      exact ⟨0, row, by omega, by simp, hlt⟩
    · simp only [hlt, if_false] at h
      cases hcell : row[2]? with
      | none => simp [hcell] at h
      | some cell =>
        cases htyp : row[1]? with
        | none => simp [hcell, htyp] at h
        | some typ =>
          cases hconv : conv ParseFloat cell typ with
          | error e => simp [hcell, htyp, hconv] at h
          | ok value =>
            cases hkey : row[0]? with
            | none => simp [hcell, htyp, hconv, hkey] at h
            | some key =>
              simp only [hcell, htyp, hconv, hkey] at h
              obtain ⟨j, row', h1, h2, h3⟩ := ih (idx + 1) _ n h
              exact ⟨j + 1, row', by omega, by simpa using h2, h3⟩

/-- Cells beyond the third play no part in the loop of `parseSingle`. -/
theorem singleLoop_take3 :
    ∀ (rs : List (List String)) (idx : Nat) (record : GoMap),
      singleLoop ParseFloat (rs.map (List.take 3)) idx record
        = singleLoop ParseFloat rs idx record := by
  intro rs
  induction rs with
  | nil => intro idx record; rfl
  | cons row rest ih =>
    intro idx record
    have hlen : (List.take 3 row).length < 3 ↔ row.length < 3 := by
      simp only [List.length_take]; omega
    have g2 : (List.take 3 row)[2]? = row[2]? := List.getElem?_take_of_lt (by omega)
    have g1 : (List.take 3 row)[1]? = row[1]? := List.getElem?_take_of_lt (by omega)
    have g0 : (List.take 3 row)[0]? = row[0]? := List.getElem?_take_of_lt (by omega)
    simp only [List.map_cons]
    rw [singleLoop, singleLoop]
    simp only [hlen, g2, g1, g0, ih]

end ParserLemmas

/-! ## The claims -/

section Claims

variable (ParseFloat : String → Except NumError Nat)

theorem parseArray_rows (f : File) (rows : List (List String)) (fields types : List String)
    (hrows : f.GetRows "Sheet1" = Except.ok rows) (h3 : rows[3]? = some fields)
    (h4 : rows[4]? = some types) (hlen : fields.length = types.length) :
    parseArray ParseFloat f = arrayLoop ParseFloat fields types (rows.drop 5) 0 [] := by
  have h5 : ¬ rows.length < 5 := by
    have := (List.getElem?_eq_some.1 h4).1
    omega
  simp only [parseArray, hrows, h3, h4]
  simp [hlen, h5]

theorem parseArray_ok_header (f : File) (rows : List (List String)) (cfgs : List GoMap)
    (hrows : f.GetRows "Sheet1" = Except.ok rows)
    (h : parseArray ParseFloat f = Result.ok cfgs) :
    ∃ fields types, rows[3]? = some fields ∧ rows[4]? = some types ∧
      fields.length = types.length ∧
      arrayLoop ParseFloat fields types (rows.drop 5) 0 [] = Result.ok cfgs := by
  simp only [parseArray, hrows] at h
  cases h3 : rows[3]? with
  | none => simp [h3] at h
  | some fields =>
    cases h4 : rows[4]? with
    | none => simp [h3, h4] at h
    | some types =>
      simp only [h3, h4] at h
      by_cases hlen : fields.length = types.length
      · refine ⟨fields, types, rfl, rfl, hlen, ?_⟩
        have h5 : ¬ rows.length < 5 := by
          have := (List.getElem?_eq_some.1 h4).1
          omega
        simpa [hlen, h5] using h
      · simp [hlen] at h

/-- C1: on a grid with at least 5 rows on which `parseArray` succeeds, the returned list
has one record per data row (`len(rows) - 5` of them, the empty list when there is no
data row), and its `j`-th element is the record the loop body builds from the grid row
at index `5 + j`: the records are in sheet order. -/
theorem parseArray_one_record_per_data_row (f : File) (rows : List (List String))
    (cfgs : List GoMap) (hrows : f.GetRows "Sheet1" = Except.ok rows)
    (h5 : 5 ≤ rows.length) (h : parseArray ParseFloat f = Result.ok cfgs) :
    cfgs.length = rows.length - 5 ∧ (rows.length = 5 → cfgs = []) ∧
    ∃ fields types, rows[3]? = some fields ∧ rows[4]? = some types ∧
      ∀ j, j < rows.length - 5 → ∃ row record, rows[5 + j]? = some row ∧
        cfgs[j]? = some record ∧
        rowRecord ParseFloat fields types row j = Result.ok record := by
  obtain ⟨fields, types, h3, h4, _, hloop⟩ := parseArray_ok_header ParseFloat f rows cfgs hrows h
  obtain ⟨recs, hc, hl, hj⟩ := arrayLoop_ok ParseFloat fields types _ _ _ _ hloop
  simp only [List.nil_append] at hc
  subst hc
  have hlen : cfgs.length = rows.length - 5 := by simp [hl]
  refine ⟨hlen, ?_, fields, types, h3, h4, ?_⟩
  · intro h
    exact List.length_eq_zero.1 (by omega)
  · intro j hjlt
    have hlt : 5 + j < rows.length := by omega
    obtain ⟨r, hr1, hr2⟩ := hj j rows[5 + j] (by
      rw [List.getElem?_drop]; exact List.getElem?_eq_getElem hlt)
    exact ⟨rows[5 + j], r, List.getElem?_eq_getElem hlt, hr1, by simpa using hr2⟩

/-- C1, at a grid of three metadata rows, a two-column header and two data rows. -/
theorem parseArray_one_record_per_data_row_witness :
    parseArray noFloat (fileOf [[], [], [], ["id", "name"], ["int", "string"],
      ["1", "Alice"], ["2", "Bob"]])
      = Result.ok [[("id", Value.int 1), ("name", Value.str "Alice")],
          [("id", Value.int 2), ("name", Value.str "Bob")]] ∧
    [[("id", Value.int 1), ("name", Value.str "Alice")],
      [("id", Value.int 2), ("name", Value.str "Bob")]].length
      = [[], [], [], ["id", "name"], ["int", "string"], ["1", "Alice"], ["2", "Bob"]].length - 5 :=
  ⟨by decide, (parseArray_one_record_per_data_row noFloat
    (fileOf [[], [], [], ["id", "name"], ["int", "string"], ["1", "Alice"], ["2", "Bob"]])
    [[], [], [], ["id", "name"], ["int", "string"], ["1", "Alice"], ["2", "Bob"]]
    [[("id", Value.int 1), ("name", Value.str "Alice")],
     [("id", Value.int 2), ("name", Value.str "Bob")]] rfl (by decide) (by decide)).1⟩

theorem conv_int_value (value : String) (v : Value)
    (h : conv ParseFloat value "int" = Except.ok v) : ∃ n, v = Value.int n := by
  simp only [conv, if_true] at h
  cases ha : Atoi value with
  | error e => simp [ha] at h
  | ok n => exact ⟨n, by simpa [ha] using h.symm⟩

/-- C2: on a grid on which `parseArray` succeeds and whose field names are pairwise
distinct, every returned record has exactly the declared field names as its keys, and
under `fields[i]` it holds `conv(row[i], types[i])` of its data row: an integer for the
label `"int"`, the unchanged text for the label `"string"`. -/
theorem parseArray_record_contents (f : File) (rows : List (List String))
    (cfgs : List GoMap) (fields types : List String)
    (hrows : f.GetRows "Sheet1" = Except.ok rows)
    (hf : rows[3]? = some fields) (ht : rows[4]? = some types)
    (hnd : fields.Nodup) (h : parseArray ParseFloat f = Result.ok cfgs) :
    ∀ (j : Nat) (record : GoMap), cfgs[j]? = some record →
      (∀ k, k ∈ GoMap.keys record ↔ k ∈ fields) ∧ (GoMap.keys record).Nodup ∧
      ∃ row, rows[5 + j]? = some row ∧
        ∀ (i : Nat) (name : String), fields[i]? = some name →
          ∃ cell typ v, row[i]? = some cell ∧ types[i]? = some typ ∧
            conv ParseFloat cell typ = Except.ok v ∧ GoMap.get record name = some v ∧
            (typ = "int" → ∃ n, v = Value.int n) ∧
            (typ = "string" → v = Value.str cell) := by
  obtain ⟨fields', types', h3, h4, _, hloop⟩ :=
    parseArray_ok_header ParseFloat f rows cfgs hrows h
  rw [hf] at h3
  rw [ht] at h4
  cases h3
  cases h4
  obtain ⟨recs, hc, hl, hj⟩ := arrayLoop_ok ParseFloat fields types _ _ _ _ hloop
  simp only [List.nil_append] at hc
  subst hc
  intro j record hrec
  have hjlt : j < (rows.drop 5).length := by
    rw [← hl]
    exact (List.getElem?_eq_some.1 hrec).1
  have hlt : 5 + j < rows.length := by
    simp only [List.length_drop] at hjlt
    omega
  obtain ⟨r, hr1, hr2⟩ := hj j rows[5 + j] (by
    rw [List.getElem?_drop]; exact List.getElem?_eq_getElem hlt)
  rw [hrec] at hr1
  cases hr1
  simp only [Nat.zero_add] at hr2
  have hrl : rows[5 + j].length = fields.length := by
    by_contra hne
    simp [rowRecord, hne] at hr2
  simp only [rowRecord, hrl, ne_eq, not_true_eq_false, if_false] at hr2
  obtain ⟨ps, hpl, hm, hps⟩ := recordLoop_ok ParseFloat fields types rows[5 + j] j _ _ _ _ hr2
  simp only [Nat.zero_add] at hps
  subst hm
  refine ⟨?_, GoMap.nodup_keys_setAll ps [] (by simp [GoMap.keys]), rows[5 + j],
    List.getElem?_eq_getElem hlt, ?_⟩
  · intro k
    rw [GoMap.mem_keys_setAll]
    constructor
    · rintro (hk | ⟨p, hp, hpk⟩)
      · simp [GoMap.keys] at hk
      · obtain ⟨n, hn⟩ := List.getElem?_of_mem hp
        obtain ⟨_, _, _, _, hfn, _⟩ := hps n p hn
        rw [← hpk]
        exact List.mem_iff_getElem?.2 ⟨n, hfn⟩
    · intro hk
      obtain ⟨n, hn⟩ := List.getElem?_of_mem hk
      have hnl : n < ps.length := by
        rw [hpl]
        exact (List.getElem?_eq_some.1 hn).1
      obtain ⟨_, _, _, _, hfn, _⟩ := hps n ps[n] (List.getElem?_eq_getElem hnl)
      rw [hn] at hfn
      exact Or.inr ⟨ps[n], List.getElem_mem _, (Option.some.inj hfn).symm⟩
  · intro i name hname
    have hil : i < ps.length := by
      rw [hpl]
      exact (List.getElem?_eq_some.1 hname).1
    obtain ⟨cell, typ, hcell, htyp, hfn, hconv⟩ := hps i ps[i] (List.getElem?_eq_getElem hil)
    rw [hname] at hfn
    have hkey : ps[i].1 = name := (Option.some.inj hfn).symm
    refine ⟨cell, typ, ps[i].2, hcell, htyp, hconv, ?_, ?_, ?_⟩
    · refine GoMap.get_setAll_last ps [] i name ps[i].2 ?_ ?_
      · rw [List.getElem?_eq_getElem hil, ← hkey]
      · intro j' q hij hq heq
        obtain ⟨_, _, _, _, hfq, _⟩ := hps j' q hq
        rw [heq, ← hname] at hfq
        have := List.getElem?_inj (List.getElem?_eq_some.1 hname).1 hnd hfq.symm
        omega
    · intro htyp'
      subst htyp'
      exact conv_int_value ParseFloat cell _ hconv
    · intro htyp'
      subst htyp'
      have : conv ParseFloat cell "string" = Except.ok (Value.str cell) := by
        simp [conv]
      rw [this] at hconv
      exact (Except.ok.inj hconv).symm

/-- C2, at the sheet of the specification: fields `id`, `name`, labels `int`, `string`,
one data row `1`, `Alice`. -/
theorem parseArray_record_contents_witness :
    parseArray noFloat (fileOf [[], [], [], ["id", "name"], ["int", "string"], ["1", "Alice"]])
      = Result.ok [[("id", Value.int 1), ("name", Value.str "Alice")]] ∧
    (∀ k, k ∈ GoMap.keys [("id", Value.int 1), ("name", Value.str "Alice")]
      ↔ k ∈ ["id", "name"]) :=
  ⟨by decide, ((parseArray_record_contents noFloat
    (fileOf [[], [], [], ["id", "name"], ["int", "string"], ["1", "Alice"]])
    [[], [], [], ["id", "name"], ["int", "string"], ["1", "Alice"]]
    [[("id", Value.int 1), ("name", Value.str "Alice")]] ["id", "name"] ["int", "string"]
    rfl rfl rfl (by decide) (by decide)) 0 _ rfl).1⟩

theorem parseSingle_rows (f : File) (rows : List (List String))
    (hrows : f.GetRows "Sheet1" = Except.ok rows) (h3 : 3 ≤ rows.length) :
    parseSingle ParseFloat f = singleLoop ParseFloat (rows.drop 3) 0 [] := by
  have : ¬ rows.length < 3 := by omega
  simp [parseSingle, hrows, this]

/-- C3: on a grid on which `parseSingle` succeeds, the keys of the returned map are
exactly the first cells of the data rows (grid rows from index 3 on), and the value
under a key `k` is `conv(row[2], row[1])` of the last data row whose first cell is `k`. -/
theorem parseSingle_keys_and_last_value (f : File) (rows : List (List String)) (m : GoMap)
    (hrows : f.GetRows "Sheet1" = Except.ok rows)
    (h : parseSingle ParseFloat f = Result.ok m) :
    (∀ k, k ∈ GoMap.keys m ↔ ∃ g row, 3 ≤ g ∧ rows[g]? = some row ∧ row[0]? = some k) ∧
    (GoMap.keys m).Nodup ∧
    ∀ (g : Nat) (row : List String) (k : String), 3 ≤ g → rows[g]? = some row →
      row[0]? = some k →
      (∀ (g' : Nat) (row' : List String), g < g' → rows[g']? = some row' →
        row'[0]? ≠ some k) →
      ∃ cell typ v, row[2]? = some cell ∧ row[1]? = some typ ∧
        conv ParseFloat cell typ = Except.ok v ∧ GoMap.get m k = some v := by
  have h3 : 3 ≤ rows.length := by
    by_contra hlt
    have : rows.length < 3 := by omega
    simp [parseSingle, hrows, this] at h
  rw [parseSingle_rows ParseFloat f rows hrows h3] at h
  obtain ⟨ps, hpl, hm, hps⟩ := singleLoop_ok ParseFloat _ _ _ _ h
  subst hm
  simp only [List.length_drop] at hpl
  have hrow : ∀ (j : Nat) (p : String × Value), ps[j]? = some p →
      ∃ row cell typ, rows[3 + j]? = some row ∧ row[0]? = some p.1 ∧ row[1]? = some typ ∧
        row[2]? = some cell ∧ conv ParseFloat cell typ = Except.ok p.2 := by
    intro j p hj
    obtain ⟨row, cell, typ, h1, h2⟩ := hps j p hj
    rw [List.getElem?_drop] at h1
    exact ⟨row, cell, typ, h1, h2⟩
  have hidx : ∀ (g : Nat) (row : List String) (k : String), 3 ≤ g → rows[g]? = some row →
      row[0]? = some k → ∃ hlt : g - 3 < ps.length, ps[g - 3].1 = k ∧
        ∃ cell typ, row[2]? = some cell ∧ row[1]? = some typ ∧
          conv ParseFloat cell typ = Except.ok ps[g - 3].2 := by
    intro g row k hg hgr hk
    have hgl : g < rows.length := (List.getElem?_eq_some.1 hgr).1
    have hlt : g - 3 < ps.length := by omega
    obtain ⟨row', cell, typ, h1, h2, h3', h4, h5⟩ :=
      hrow (g - 3) ps[g - 3] (List.getElem?_eq_getElem hlt)
    have e : 3 + (g - 3) = g := by omega
    rw [e, hgr] at h1
    cases h1
    rw [hk] at h2
    exact ⟨hlt, (Option.some.inj h2).symm, cell, typ, h4, h3', h5⟩
  refine ⟨?_, GoMap.nodup_keys_setAll ps [] (by simp [GoMap.keys]), ?_⟩
  · intro k
    rw [GoMap.mem_keys_setAll]
    constructor
    · rintro (hk | ⟨p, hp, hpk⟩)
      · simp [GoMap.keys] at hk
      · obtain ⟨n, hn⟩ := List.getElem?_of_mem hp
        obtain ⟨row, _, _, h1, h2, _⟩ := hrow n p hn
        exact ⟨3 + n, row, by omega, h1, by rw [h2, hpk]⟩
    · rintro ⟨g, row, hg, hgr, hk⟩
      obtain ⟨hlt, hkey, _⟩ := hidx g row k hg hgr hk
      exact Or.inr ⟨ps[g - 3], List.getElem_mem _, hkey⟩
  · intro g row k hg hgr hk hlast
    obtain ⟨hlt, hkey, cell, typ, h2, h1, hconv⟩ := hidx g row k hg hgr hk
    refine ⟨cell, typ, ps[g - 3].2, h2, h1, hconv, ?_⟩
    refine GoMap.get_setAll_last ps [] (g - 3) k ps[g - 3].2 ?_ ?_
    · rw [List.getElem?_eq_getElem hlt, ← hkey]
    · intro j' q hjj hq heq
      obtain ⟨row', _, _, h1', h2', _⟩ := hrow j' q hq
      exact hlast (3 + j') row' (by omega) h1' (by rw [h2', heq])

/-- C3, at the sheet of the specification: data rows `maxHP, int, 100` and
`title, string, Boss`. -/
theorem parseSingle_keys_and_last_value_witness :
    parseSingle noFloat (fileOf [[], [], [], ["maxHP", "int", "100"], ["title", "string", "Boss"]])
      = Result.ok [("maxHP", Value.int 100), ("title", Value.str "Boss")] ∧
    (∀ k, k ∈ GoMap.keys [("maxHP", Value.int 100), ("title", Value.str "Boss")] ↔
      ∃ g row, 3 ≤ g ∧
        [[], [], [], ["maxHP", "int", "100"], ["title", "string", "Boss"]][g]? = some row ∧
        row[0]? = some k) :=
  ⟨by decide, (parseSingle_keys_and_last_value noFloat
    (fileOf [[], [], [], ["maxHP", "int", "100"], ["title", "string", "Boss"]])
    [[], [], [], ["maxHP", "int", "100"], ["title", "string", "Boss"]]
    [("maxHP", Value.int 100), ("title", Value.str "Boss")] rfl (by decide)).1⟩

/-- C4: for every text and every type label other than `"int"` and `"float"`, `conv`
returns the text unchanged, as a string, and no error. -/
theorem conv_passthrough (value typ : String) (hint : typ ≠ "int") (hfloat : typ ≠ "float") :
    conv ParseFloat value typ = Except.ok (Value.str value) := by
  simp [conv, hint, hfloat]

/-- C4, at the labels `"string"`, `"foo"`, `"Int"` and the empty label. -/
theorem conv_passthrough_witness :
    conv noFloat "abc" "string" = Except.ok (Value.str "abc") ∧
    conv noFloat "abc" "foo" = Except.ok (Value.str "abc") ∧
    conv noFloat "12" "Int" = Except.ok (Value.str "12") ∧
    conv noFloat "3.5" "" = Except.ok (Value.str "3.5") :=
  ⟨conv_passthrough noFloat "abc" "string" (by decide) (by decide),
   conv_passthrough noFloat "abc" "foo" (by decide) (by decide),
   conv_passthrough noFloat "12" "Int" (by decide) (by decide),
   conv_passthrough noFloat "3.5" "" (by decide) (by decide)⟩

/-- C5: `conv(text, "int")` parses the text as a base-10 integer. It returns the integer
`n` exactly when the text is an optional single `+` or `-` followed by one or more ASCII
decimal digits that denote `n` within the signed 64-bit range; on every other text it
returns an error (of `Atoi`, naming the text). So `"42"` gives 42, and the empty text,
a text with spaces, with a decimal point, with a letter, with an underscore, or beyond
the range gives an error. -/
theorem conv_int_iff_decimal (text : String) :
    (∀ v, conv ParseFloat text "int" = Except.ok v ↔
      ∃ n, v = Value.int n ∧ IsDecimalInt text n) ∧
    ((¬ ∃ n, IsDecimalInt text n) →
      ∃ k, conv ParseFloat text "int" = Except.error ⟨"Atoi", text, k⟩) ∧
    conv ParseFloat "42" "int" = Except.ok (Value.int 42) ∧
    conv ParseFloat "-7" "int" = Except.ok (Value.int (-7)) ∧
    conv ParseFloat "+7" "int" = Except.ok (Value.int 7) ∧
    conv ParseFloat "" "int" = Except.error ⟨"Atoi", "", ErrKind.invalid⟩ ∧
    conv ParseFloat " 42" "int" = Except.error ⟨"Atoi", " 42", ErrKind.invalid⟩ ∧
    conv ParseFloat "4.2" "int" = Except.error ⟨"Atoi", "4.2", ErrKind.invalid⟩ ∧
    conv ParseFloat "4a" "int" = Except.error ⟨"Atoi", "4a", ErrKind.invalid⟩ ∧
    conv ParseFloat "1_000" "int" = Except.error ⟨"Atoi", "1_000", ErrKind.invalid⟩ ∧
    conv ParseFloat "+-1" "int" = Except.error ⟨"Atoi", "+-1", ErrKind.invalid⟩ ∧
    conv ParseFloat "9223372036854775807" "int" = Except.ok (Value.int 9223372036854775807) ∧
    conv ParseFloat "9223372036854775808" "int"
      = Except.error ⟨"Atoi", "9223372036854775808", ErrKind.range⟩ ∧
    conv ParseFloat "-9223372036854775808" "int"
      = Except.ok (Value.int (-9223372036854775808)) := by
  have hconv : conv ParseFloat text "int" = (match Atoi text with
      | Except.ok i => Except.ok (Value.int i)
      | Except.error e => Except.error e) := by
    simp [conv]
  refine ⟨?_, ?_, rfl, rfl, rfl, rfl, rfl, rfl, rfl, rfl, rfl, rfl, rfl, rfl⟩
  · intro v
    rw [hconv]
    constructor
    · intro h
      cases ha : Atoi text with
      | error e => simp [ha] at h
      | ok n =>
        simp only [ha, Except.ok.injEq] at h
        exact ⟨n, h.symm, (Atoi_ok_iff text n).1 ha⟩
    · rintro ⟨n, rfl, hn⟩
      rw [(Atoi_ok_iff text n).2 hn]
  · intro hno
    rw [hconv]
    rcases Atoi_total text with ⟨n, hn⟩ | ⟨k, hk⟩
    · exact absurd ⟨n, (Atoi_ok_iff text n).1 hn⟩ hno
    · exact ⟨k, by rw [hk]⟩

/-- C6: on a grid with at least 5 rows whose field-name row and type-label row differ in
length, `parseArray` returns the schema-mismatch error, whatever the data rows are. -/
theorem parseArray_schema_mismatch (f : File) (r0 r1 r2 fields types : List String)
    (data : List (List String))
    (hrows : f.GetRows "Sheet1" = Except.ok (r0 :: r1 :: r2 :: fields :: types :: data))
    (hne : fields.length ≠ types.length) :
    parseArray ParseFloat f = Result.err ParseError.schemaMismatch := by
  simp [parseArray, hrows, hne]

/-- C6, at a header of two names and one label followed by a data row that is too long
and holds a cell that does not convert. -/
theorem parseArray_schema_mismatch_witness :
    parseArray noFloat (fileOf [[], [], [], ["id", "name"], ["int"], ["x", "y", "z"]])
      = Result.err ParseError.schemaMismatch :=
  parseArray_schema_mismatch noFloat _ [] [] [] ["id", "name"] ["int"] [["x", "y", "z"]]
    rfl (by decide)

theorem parseArray_first_error (f : File) (rows : List (List String))
    (fields types : List String) (g : Nat) (bad : List String) (e : ParseError)
    (hrows : f.GetRows "Sheet1" = Except.ok rows)
    (hf : rows[3]? = some fields) (ht : rows[4]? = some types)
    (hlen : fields.length = types.length) (hg : 5 ≤ g) (hbad : rows[g]? = some bad)
    (hgood : ∀ (j : Nat) (row : List String), 5 ≤ j → j < g → rows[j]? = some row →
      ValidRow ParseFloat fields types row)
    (herr : rowRecord ParseFloat fields types bad (g - 5) = Result.err e) :
    parseArray ParseFloat f = Result.err e := by
  rw [parseArray_rows ParseFloat f rows fields types hrows hf ht hlen]
  refine arrayLoop_first_error ParseFloat fields types _ 0 [] (g - 5) bad e ?_ ?_ ?_
  · rw [List.getElem?_drop]
    have e' : 5 + (g - 5) = g := by omega
    rw [e']
    exact hbad
  · intro j row hj hrow
    rw [List.getElem?_drop] at hrow
    exact rowRecord_of_valid ParseFloat fields types row _ hlen
      (hgood (5 + j) row (by omega) (by omega) hrow)
  · simpa using herr

/-- C7: with matching header lengths, if the first data row that is not fully valid has
a cell count other than `fieldLen`, `parseArray` returns the row-length error with the
1-based sheet row number of that row (grid index + 1) and the column number
`len(row) + 1`, whatever the cells of that row are. -/
theorem parseArray_row_length_error (f : File) (rows : List (List String))
    (fields types : List String) (g : Nat) (bad : List String)
    (hrows : f.GetRows "Sheet1" = Except.ok rows)
    (hf : rows[3]? = some fields) (ht : rows[4]? = some types)
    (hlen : fields.length = types.length) (hg : 5 ≤ g) (hbad : rows[g]? = some bad)
    (hgood : ∀ (j : Nat) (row : List String), 5 ≤ j → j < g → rows[j]? = some row →
      ValidRow ParseFloat fields types row)
    (hcount : bad.length ≠ fields.length) :
    parseArray ParseFloat f
      = Result.err (ParseError.rowLength (g + 1) (bad.length + 1)) ∧
    g + 1 = (g - 5) + 6 := by
  refine ⟨parseArray_first_error ParseFloat f rows fields types g bad _ hrows hf ht hlen hg
    hbad hgood ?_, by omega⟩
  have e' : g - 5 + 6 = g + 1 := by omega
  simp [rowRecord, hcount, e']

theorem validRow_example :
    ValidRow noFloat ["id", "name"] ["int", "string"] ["1", "Alice"] := by
  refine ⟨rfl, ?_⟩
  intro i cell typ hc ht
  match i, hc, ht with
  | 0, hc, ht =>
    simp only [List.getElem?_cons_zero, Option.some.injEq] at hc ht
    subst hc ht
    exact ⟨Value.int 1, rfl⟩
  | 1, hc, ht =>
    simp only [List.getElem?_cons_succ, List.getElem?_cons_zero, Option.some.injEq] at hc ht
    subst hc ht
    exact ⟨Value.str "Alice", rfl⟩
  | n + 2, hc, ht => simp at hc

theorem validRow_example_rows (tail : List (List String)) (j : Nat) (row : List String)
    (h5 : 5 ≤ j) (h6 : j < 6)
    (h : ([] :: [] :: [] :: ["id", "name"] :: ["int", "string"] :: ["1", "Alice"] :: tail)[j]?
      = some row) :
    ValidRow noFloat ["id", "name"] ["int", "string"] row := by
  have hj : j = 5 := by omega
  subst hj
  simp only [List.getElem?_cons_succ, List.getElem?_cons_zero, Option.some.injEq] at h
  subst h
  exact validRow_example

/-- C7, at a sheet whose second data row (sheet row 7) has one cell instead of two; the
cell itself would not convert. -/
theorem parseArray_row_length_error_witness :
    parseArray noFloat (fileOf [[], [], [], ["id", "name"], ["int", "string"],
      ["1", "Alice"], ["x"], ["2", "Bob"]])
      = Result.err (ParseError.rowLength 7 2) :=
  (parseArray_row_length_error noFloat _ _ ["id", "name"] ["int", "string"] 6 ["x"]
    rfl rfl rfl rfl (by decide) rfl (validRow_example_rows _) (by decide)).1

/-- C8: with matching header lengths, if the first data row that is not fully valid has
exactly `fieldLen` cells, `parseArray` returns the cell-conversion error with the 1-based
sheet row number of that row (grid index + 1) and the 1-based column number of the
leftmost cell of the row whose coercion fails, together with the error of that coercion;
later cells and later rows play no part. -/
theorem parseArray_cell_conversion_error (f : File) (rows : List (List String))
    (fields types : List String) (g : Nat) (bad : List String)
    (c : Nat) (cell typ : String) (e : NumError)
    (hrows : f.GetRows "Sheet1" = Except.ok rows)
    (hf : rows[3]? = some fields) (ht : rows[4]? = some types)
    (hlen : fields.length = types.length) (hg : 5 ≤ g) (hbad : rows[g]? = some bad)
    (hgood : ∀ (j : Nat) (row : List String), 5 ≤ j → j < g → rows[j]? = some row →
      ValidRow ParseFloat fields types row)
    (hcount : bad.length = fields.length)
    (hcell : bad[c]? = some cell) (htyp : types[c]? = some typ)
    (hfail : conv ParseFloat cell typ = Except.error e)
    (hleft : ∀ (i : Nat) (cell' typ' : String), i < c → bad[i]? = some cell' →
      types[i]? = some typ' → ∃ v, conv ParseFloat cell' typ' = Except.ok v) :
    parseArray ParseFloat f = Result.err (ParseError.cellConversion (g + 1) (c + 1) e) := by
  refine parseArray_first_error ParseFloat f rows fields types g bad _ hrows hf ht hlen hg
    hbad hgood ?_
  have hc : c < bad.length := (List.getElem?_eq_some.1 hcell).1
  have e' : g - 5 + 6 = g + 1 := by omega
  have := recordLoop_first_failure ParseFloat fields types bad (g - 5) fields.length 0 [] c
    cell typ e (by omega) (by omega) (by omega) (Nat.zero_le c) (by omega) hcell htyp hfail
    (fun j cell' typ' _ hj => hleft j cell' typ' hj)
  rw [e'] at this
  simp [rowRecord, hcount, this]

/-- C8, at a sheet whose second data row (sheet row 7) has the right length and a first
cell `x` that is no integer; its second cell and the row after it are not looked at. -/
theorem parseArray_cell_conversion_error_witness :
    parseArray noFloat (fileOf [[], [], [], ["id", "name"], ["int", "string"],
      ["1", "Alice"], ["x", "Bob"], ["y"]])
      = Result.err (ParseError.cellConversion 7 1 ⟨"Atoi", "x", ErrKind.invalid⟩) :=
  parseArray_cell_conversion_error noFloat _ _ ["id", "name"] ["int", "string"] 6 ["x", "Bob"]
    0 "x" "int" ⟨"Atoi", "x", ErrKind.invalid⟩
    rfl rfl rfl rfl (by decide) rfl (validRow_example_rows _) rfl rfl rfl rfl
    (fun i _ _ hi => absurd hi (Nat.not_lt_zero i))

theorem parseSingle_at_first_offender (f : File) (rows : List (List String)) (g : Nat)
    (bad : List String) (hrows : f.GetRows "Sheet1" = Except.ok rows)
    (hg : 3 ≤ g) (hbad : rows[g]? = some bad)
    (hgood : ∀ (j : Nat) (row : List String), 3 ≤ j → j < g → rows[j]? = some row →
      ValidTriple ParseFloat row) :
    ∃ record rest, parseSingle ParseFloat f
      = singleLoop ParseFloat (bad :: rest) (g - 3) record := by
  have hgl : g < rows.length := (List.getElem?_eq_some.1 hbad).1
  rw [parseSingle_rows ParseFloat f rows hrows (by omega)]
  obtain ⟨record, hrec⟩ := singleLoop_skip ParseFloat (rows.drop 3) 0 [] (g - 3)
    (by simp only [List.length_drop]; omega)
    (fun j row hj hrow => hgood (3 + j) row (by omega) (by omega)
      (by rw [List.getElem?_drop] at hrow; exact hrow))
  refine ⟨record, rows.drop (g + 1), ?_⟩
  rw [hrec, List.drop_drop]
  have e : 3 + (g - 3) = g := by omega
  have hb : rows[g] = bad := by
    rw [List.getElem?_eq_getElem hgl] at hbad
    exact Option.some.inj hbad
  rw [e, List.drop_eq_getElem_cons hgl, hb, Nat.zero_add]

/-- C9: on a grid with at least 3 rows, if the first offending data row (rows from grid
index 3 on) has fewer than 3 cells, `parseSingle` returns the row-too-short error with
that row's 1-based sheet row number (grid index + 1); the error is never raised for a
row with 3 or more cells; and cells beyond the third of a row are ignored. -/
theorem parseSingle_row_too_short (f : File) (rows : List (List String))
    (hrows : f.GetRows "Sheet1" = Except.ok rows) (h3 : 3 ≤ rows.length) :
    (∀ (g : Nat) (bad : List String), 3 ≤ g → rows[g]? = some bad →
      (∀ (j : Nat) (row : List String), 3 ≤ j → j < g → rows[j]? = some row →
        ValidTriple ParseFloat row) →
      bad.length < 3 →
      parseSingle ParseFloat f = Result.err (ParseError.rowTooShort (g + 1)) ∧
        g + 1 = (g - 3) + 4) ∧
    (∀ n, parseSingle ParseFloat f = Result.err (ParseError.rowTooShort n) →
      ∃ row, 4 ≤ n ∧ rows[n - 1]? = some row ∧ row.length < 3) ∧
    (∀ f' : File,
      f'.GetRows "Sheet1" = Except.ok (rows.take 3 ++ (rows.drop 3).map (List.take 3)) →
      parseSingle ParseFloat f' = parseSingle ParseFloat f) := by
  refine ⟨?_, ?_, ?_⟩
  · intro g bad hg hbad hgood hshort
    obtain ⟨record, rest, hrun⟩ :=
      parseSingle_at_first_offender ParseFloat f rows g bad hrows hg hbad hgood
    have e : g - 3 + 4 = g + 1 := by omega
    refine ⟨?_, by omega⟩
    rw [hrun, singleLoop]
    simp [hshort, e]
  · intro n hn
    rw [parseSingle_rows ParseFloat f rows hrows h3] at hn
    obtain ⟨j, row, h1, h2, h3'⟩ := singleLoop_rowTooShort ParseFloat _ _ _ _ hn
    rw [List.getElem?_drop] at h2
    refine ⟨row, by omega, ?_, h3'⟩
    have e : n - 1 = 3 + j := by omega
    rw [e]
    exact h2
  · intro f' hf'
    have hl : 3 ≤ (rows.take 3 ++ (rows.drop 3).map (List.take 3)).length := by
      simp only [List.length_append, List.length_take, List.length_map, List.length_drop]
      omega
    have hd : (rows.take 3 ++ (rows.drop 3).map (List.take 3)).drop 3
        = (rows.drop 3).map (List.take 3) := by
      have ht : (rows.take 3).length = 3 := by
        simp only [List.length_take]; omega
      rw [List.drop_append_eq_append_drop, ht]
      simp [List.drop_eq_nil_of_le (Nat.le_of_eq ht)]
    rw [parseSingle_rows ParseFloat f' _ hf' hl, parseSingle_rows ParseFloat f rows hrows h3,
      hd, singleLoop_take3]

theorem validTriple_example : ValidTriple noFloat ["maxHP", "int", "100"] := by
  refine ⟨by decide, ?_⟩
  intro cell typ hc ht
  simp only [List.getElem?_cons_succ, List.getElem?_cons_zero, Option.some.injEq] at hc ht
  subst hc ht
  exact ⟨Value.int 100, rfl⟩

theorem validTriple_example_rows (tail : List (List String)) (j : Nat) (row : List String)
    (h3 : 3 ≤ j) (h4 : j < 4)
    (h : ([] :: [] :: [] :: ["maxHP", "int", "100"] :: tail)[j]? = some row) :
    ValidTriple noFloat row := by
  have hj : j = 3 := by omega
  subst hj
  simp only [List.getElem?_cons_succ, List.getElem?_cons_zero, Option.some.injEq] at h
  subst h
  exact validTriple_example

/-- C9, at a sheet whose second data row (sheet row 5) has two cells. -/
theorem parseSingle_row_too_short_witness :
    parseSingle noFloat (fileOf [[], [], [], ["maxHP", "int", "100"], ["title", "string"]])
      = Result.err (ParseError.rowTooShort 5) :=
  ((parseSingle_row_too_short noFloat
    (fileOf [[], [], [], ["maxHP", "int", "100"], ["title", "string"]])
    [[], [], [], ["maxHP", "int", "100"], ["title", "string"]] rfl (by decide)).1
    4 ["title", "string"] (by decide) rfl (validTriple_example_rows _) (by decide)).1

/-- C10: on a grid with at least 3 rows, if the first offending data row has at least 3
cells and `conv(row[2], row[1])` fails, `parseSingle` returns the conversion error with
that row's 1-based sheet row number (grid index + 1), no column number, and the error of
the coercion; no map is returned. -/
theorem parseSingle_conversion_error (f : File) (rows : List (List String)) (g : Nat)
    (bad : List String) (cell typ : String) (e : NumError)
    (hrows : f.GetRows "Sheet1" = Except.ok rows)
    (hg : 3 ≤ g) (hbad : rows[g]? = some bad)
    (hgood : ∀ (j : Nat) (row : List String), 3 ≤ j → j < g → rows[j]? = some row →
      ValidTriple ParseFloat row)
    (hcount : 3 ≤ bad.length) (hcell : bad[2]? = some cell) (htyp : bad[1]? = some typ)
    (hfail : conv ParseFloat cell typ = Except.error e) :
    parseSingle ParseFloat f = Result.err (ParseError.rowConversion (g + 1) e) ∧
    ∀ m, parseSingle ParseFloat f ≠ Result.ok m := by
  obtain ⟨record, rest, hrun⟩ :=
    parseSingle_at_first_offender ParseFloat f rows g bad hrows hg hbad hgood
  have e' : g - 3 + 4 = g + 1 := by omega
  have hlt : ¬ bad.length < 3 := by omega
  have hres : parseSingle ParseFloat f = Result.err (ParseError.rowConversion (g + 1) e) := by
    rw [hrun, singleLoop]
    simp only [hlt, if_false, hcell, htyp, hfail, e']
  refine ⟨hres, ?_⟩
  intro m hm
  rw [hres] at hm
  exact absurd hm (by simp)

/-- C10, at a sheet whose second data row (sheet row 5) holds `abc` under the label
`int`. -/
theorem parseSingle_conversion_error_witness :
    parseSingle noFloat (fileOf [[], [], [], ["maxHP", "int", "100"], ["title", "int", "abc"]])
      = Result.err (ParseError.rowConversion 5 ⟨"Atoi", "abc", ErrKind.invalid⟩) :=
  (parseSingle_conversion_error noFloat
    (fileOf [[], [], [], ["maxHP", "int", "100"], ["title", "int", "abc"]])
    [[], [], [], ["maxHP", "int", "100"], ["title", "int", "abc"]] 4 ["title", "int", "abc"]
    "abc" "int" ⟨"Atoi", "abc", ErrKind.invalid⟩ rfl (by decide) rfl
    (validTriple_example_rows _) (by decide) rfl rfl rfl).1

/-- C17: the fixed row indices are not guarded. On a grid with fewer than 5 rows
`parseArray`, and on a grid with fewer than 3 rows `parseSingle`, returns neither a
value nor an error: it faults on an index out of range. -/
theorem parsers_fault_on_short_grid (f : File) (rows : List (List String))
    (hrows : f.GetRows "Sheet1" = Except.ok rows) :
    (rows.length < 5 → parseArray ParseFloat f = Result.fault) ∧
    (rows.length < 3 → parseSingle ParseFloat f = Result.fault) := by
  constructor
  · intro h
    simp only [parseArray, hrows]
    cases h3 : rows[3]? with
    | none => rfl
    | some fields =>
      have h4 : rows[4]? = none := List.getElem?_eq_none (by omega)
      simp only [h4]
  · intro h
    simp [parseSingle, hrows, h]

/-- C17, at a grid of four rows for `parseArray` and of two rows for `parseSingle`. -/
theorem parsers_fault_on_short_grid_witness :
    parseArray noFloat (fileOf [[], [], [], ["id", "name"]]) = Result.fault ∧
    parseSingle noFloat (fileOf [["", "cfg"], ["", "单项"]]) = Result.fault :=
  ⟨(parsers_fault_on_short_grid noFloat (fileOf [[], [], [], ["id", "name"]])
      [[], [], [], ["id", "name"]] rfl).1 (by decide),
   (parsers_fault_on_short_grid noFloat (fileOf [["", "cfg"], ["", "单项"]])
      [["", "cfg"], ["", "单项"]] rfl).2 (by decide)⟩

theorem recordLoop_ok_or_conversion (fields types row : List String) (idx : Nat) :
    ∀ (n i : Nat) (record : GoMap),
      i + n ≤ row.length → i + n ≤ types.length → i + n ≤ fields.length →
      (∃ m, recordLoop ParseFloat fields types row idx n i record = Result.ok m) ∨
      ∃ c e, recordLoop ParseFloat fields types row idx n i record
        = Result.err (ParseError.cellConversion (idx + 6) c e) := by
  intro n
  induction n with
  | zero => intro i record _ _ _; exact Or.inl ⟨record, rfl⟩
  | succ n ih =>
    intro i record hr ht hf
    have hri : i < row.length := by omega
    have hti : i < types.length := by omega
    have hfi : i < fields.length := by omega
    cases hconv : conv ParseFloat row[i] types[i] with
    | error e =>
      right
      refine ⟨i + 1, e, ?_⟩
      unfold recordLoop
      simp only [List.getElem?_eq_getElem hri, List.getElem?_eq_getElem hti, hconv]
    | ok v =>
      have := ih (i + 1) (GoMap.set record fields[i] v) (by omega) (by omega) (by omega)
      unfold recordLoop
      simp only [List.getElem?_eq_getElem hri, List.getElem?_eq_getElem hti,
        List.getElem?_eq_getElem hfi, hconv]
      exact this

theorem rowRecord_cases (fields types row : List String) (idx : Nat)
    (hlen : fields.length = types.length) :
    (∃ m, rowRecord ParseFloat fields types row idx = Result.ok m) ∨
    (∃ r c, rowRecord ParseFloat fields types row idx = Result.err (ParseError.rowLength r c)) ∨
    ∃ r c e, rowRecord ParseFloat fields types row idx
      = Result.err (ParseError.cellConversion r c e) := by
  by_cases h : row.length = fields.length
  · rcases recordLoop_ok_or_conversion ParseFloat fields types row idx fields.length 0 []
      (by omega) (by omega) (by omega) with ⟨m, hm⟩ | ⟨c, e, he⟩
    · exact Or.inl ⟨m, by simp [rowRecord, h, hm]⟩
    · exact Or.inr (Or.inr ⟨idx + 6, c, e, by simp [rowRecord, h, he]⟩)
  · exact Or.inr (Or.inl ⟨idx + 6, row.length + 1, by simp [rowRecord, h]⟩)

theorem arrayLoop_cases (fields types : List String) (hlen : fields.length = types.length) :
    ∀ (rs : List (List String)) (idx : Nat) (acc : List GoMap),
      (∃ cfgs, arrayLoop ParseFloat fields types rs idx acc = Result.ok cfgs) ∨
      (∃ r c, arrayLoop ParseFloat fields types rs idx acc
        = Result.err (ParseError.rowLength r c)) ∨
      ∃ r c e, arrayLoop ParseFloat fields types rs idx acc
        = Result.err (ParseError.cellConversion r c e) := by
  intro rs
  induction rs with
  | nil => intro idx acc; exact Or.inl ⟨acc, rfl⟩
  | cons row rest ih =>
    intro idx acc
    rcases rowRecord_cases ParseFloat fields types row idx hlen with
      ⟨m, hm⟩ | ⟨r, c, h⟩ | ⟨r, c, e, h⟩
    · have := ih (idx + 1) (acc ++ [m])
      unfold arrayLoop
      rw [hm]
      exact this
    · refine Or.inr (Or.inl ⟨r, c, ?_⟩)
      unfold arrayLoop
      rw [h]
    · refine Or.inr (Or.inr ⟨r, c, e, ?_⟩)
      unfold arrayLoop
      rw [h]

theorem singleLoop_cases :
    ∀ (rs : List (List String)) (idx : Nat) (record : GoMap),
      (∃ m, singleLoop ParseFloat rs idx record = Result.ok m) ∨
      (∃ r, singleLoop ParseFloat rs idx record = Result.err (ParseError.rowTooShort r)) ∨
      ∃ r e, singleLoop ParseFloat rs idx record
        = Result.err (ParseError.rowConversion r e) := by
  intro rs
  induction rs with
  | nil => intro idx record; exact Or.inl ⟨record, rfl⟩
  | cons row rest ih =>
    intro idx record
    by_cases hlt : row.length < 3
    · refine Or.inr (Or.inl ⟨idx + 4, ?_⟩)
      rw [singleLoop]
      simp only [hlt, if_true]
    · have h0 : 0 < row.length := by omega
      have h1 : 1 < row.length := by omega
      have h2 : 2 < row.length := by omega
      cases hconv : conv ParseFloat row[2] row[1] with
      | error e =>
        refine Or.inr (Or.inr ⟨idx + 4, e, ?_⟩)
        rw [singleLoop]
        simp only [hlt, if_false, List.getElem?_eq_getElem h2, List.getElem?_eq_getElem h1,
          hconv]
      | ok v =>
        have := ih (idx + 1) (GoMap.set record row[0] v)
        rw [singleLoop]
        simp only [hlt, if_false, List.getElem?_eq_getElem h2, List.getElem?_eq_getElem h1,
          List.getElem?_eq_getElem h0, hconv]
        exact this

/-- C18: on a grid with at least 5 rows `parseArray` never faults: it returns a list of
records or one of its three errors (schema mismatch, row length, cell conversion), since
`row[i]`, `types[i]` and `fields[i]` are read only after both length checks. On a grid
with at least 3 rows `parseSingle` never faults either: it returns a map, the
row-too-short error or the conversion error. -/
theorem parsers_total_on_long_grid (f : File) (rows : List (List String))
    (hrows : f.GetRows "Sheet1" = Except.ok rows) :
    (5 ≤ rows.length →
      (∃ cfgs, parseArray ParseFloat f = Result.ok cfgs) ∨
      parseArray ParseFloat f = Result.err ParseError.schemaMismatch ∨
      (∃ r c, parseArray ParseFloat f = Result.err (ParseError.rowLength r c)) ∨
      ∃ r c e, parseArray ParseFloat f = Result.err (ParseError.cellConversion r c e)) ∧
    (3 ≤ rows.length →
      (∃ m, parseSingle ParseFloat f = Result.ok m) ∨
      (∃ r, parseSingle ParseFloat f = Result.err (ParseError.rowTooShort r)) ∨
      ∃ r e, parseSingle ParseFloat f = Result.err (ParseError.rowConversion r e)) := by
  constructor
  · intro h5
    have h3 : rows[3]? = some rows[3] := List.getElem?_eq_getElem (by omega)
    have h4 : rows[4]? = some rows[4] := List.getElem?_eq_getElem (by omega)
    by_cases hlen : rows[3].length = rows[4].length
    · rw [parseArray_rows ParseFloat f rows _ _ hrows h3 h4 hlen]
      rcases arrayLoop_cases ParseFloat _ _ hlen (rows.drop 5) 0 [] with h | h | h
      · exact Or.inl h
      · exact Or.inr (Or.inr (Or.inl h))
      · exact Or.inr (Or.inr (Or.inr h))
    · refine Or.inr (Or.inl ?_)
      simp [parseArray, hrows, h3, h4, hlen]
  · intro h3
    rw [parseSingle_rows ParseFloat f rows hrows h3]
    exact singleLoop_cases ParseFloat _ _ _

/-- C18, at a grid of five rows for `parseArray` and of three rows for `parseSingle`. -/
theorem parsers_total_on_long_grid_witness :
    ((∃ cfgs, parseArray noFloat (fileOf [[], [], [], ["id"], ["int"]]) = Result.ok cfgs) ∨
      parseArray noFloat (fileOf [[], [], [], ["id"], ["int"]])
        = Result.err ParseError.schemaMismatch ∨
      (∃ r c, parseArray noFloat (fileOf [[], [], [], ["id"], ["int"]])
        = Result.err (ParseError.rowLength r c)) ∨
      ∃ r c e, parseArray noFloat (fileOf [[], [], [], ["id"], ["int"]])
        = Result.err (ParseError.cellConversion r c e)) ∧
    parseArray noFloat (fileOf [[], [], [], ["id"], ["int"]]) = Result.ok [] ∧
    parseSingle noFloat (fileOf [[], [], []]) = Result.ok [] :=
  ⟨(parsers_total_on_long_grid noFloat (fileOf [[], [], [], ["id"], ["int"]])
      [[], [], [], ["id"], ["int"]] rfl).1 (by decide), by decide, by decide⟩

/-- C19: the parsers ignore the metadata rows. If two grids with at least 3 rows each
agree on every row from index 3 on, `parseArray` returns the same result on both, and so
does `parseSingle`, whatever the rows 0 to 2 and the cells `B1` and `B2` hold. -/
theorem parsers_ignore_metadata_rows (f₁ f₂ : File) (rows₁ rows₂ : List (List String))
    (h₁ : f₁.GetRows "Sheet1" = Except.ok rows₁) (h₂ : f₂.GetRows "Sheet1" = Except.ok rows₂)
    (hlen₁ : 3 ≤ rows₁.length) (hlen₂ : 3 ≤ rows₂.length)
    (hagree : ∀ i : Nat, 3 ≤ i → rows₁[i]? = rows₂[i]?) :
    parseArray ParseFloat f₁ = parseArray ParseFloat f₂ ∧
    parseSingle ParseFloat f₁ = parseSingle ParseFloat f₂ := by
  have hdrop : ∀ k, 3 ≤ k → rows₁.drop k = rows₂.drop k := by
    intro k hk
    apply List.ext_getElem?
    intro n
    rw [List.getElem?_drop, List.getElem?_drop]
    exact hagree (k + n) (by omega)
  have hlen : rows₁.length = rows₂.length := by
    have := congrArg List.length (hdrop 3 (Nat.le_refl 3))
    simp only [List.length_drop] at this
    omega
  constructor
  · simp only [parseArray, h₁, h₂, hagree 3 (by omega), hagree 4 (by omega),
      hdrop 5 (by omega), hlen]
  · simp only [parseSingle, h₁, h₂, hdrop 3 (by omega), hlen]

/-- C19, at two sheets that differ in their first three rows only. -/
theorem parsers_ignore_metadata_rows_witness :
    parseArray noFloat (fileOf [["", "a"], ["", "列表"], ["x"], ["id"], ["int"], ["1"]])
      = parseArray noFloat (fileOf [["", "b"], ["", "单项"], ["y", "z"], ["id"], ["int"], ["1"]]) ∧
    parseSingle noFloat (fileOf [["", "a"], ["", "列表"], ["x"], ["id"], ["int"], ["1"]])
      = parseSingle noFloat (fileOf [["", "b"], ["", "单项"], ["y", "z"], ["id"], ["int"], ["1"]]) :=
  parsers_ignore_metadata_rows noFloat _ _
    [["", "a"], ["", "列表"], ["x"], ["id"], ["int"], ["1"]]
    [["", "b"], ["", "单项"], ["y", "z"], ["id"], ["int"], ["1"]] rfl rfl (by decide) (by decide)
    (fun i hi => by
      match i, hi with
      | 3, _ => rfl
      | 4, _ => rfl
      | 5, _ => rfl
      | n + 6, _ => rfl)

theorem arrayLoop_of_valid (fields types : List String) (hlen : fields.length = types.length) :
    ∀ (rs : List (List String)) (idx : Nat) (acc : List GoMap),
      (∀ row ∈ rs, ValidRow ParseFloat fields types row) →
      ∃ cfgs, arrayLoop ParseFloat fields types rs idx acc = Result.ok cfgs := by
  intro rs
  induction rs with
  | nil => intro idx acc _; exact ⟨acc, rfl⟩
  | cons row rest ih =>
    intro idx acc hall
    obtain ⟨m, hm⟩ := rowRecord_of_valid ParseFloat fields types row idx hlen
      (hall row (List.mem_cons_self _ _))
    obtain ⟨cfgs, hc⟩ := ih (idx + 1) (acc ++ [m])
      (fun r hr => hall r (List.mem_cons_of_mem _ hr))
    refine ⟨cfgs, ?_⟩
    unfold arrayLoop
    rw [hm]
    exact hc

/-- What the body of the outer loop stores in the record of a row: the keys are the
field names, without repetition, and under a name lies the coerced cell of the rightmost
column that bears the name. -/
theorem rowRecord_ok_contents (fields types row : List String) (idx : Nat) (record : GoMap)
    (h : rowRecord ParseFloat fields types row idx = Result.ok record) :
    (GoMap.keys record).Nodup ∧ (∀ k, k ∈ GoMap.keys record ↔ k ∈ fields) ∧
    ∀ (i : Nat) (name : String), fields[i]? = some name →
      (∀ i' : Nat, i < i' → fields[i']? ≠ some name) →
      ∃ cell typ v, row[i]? = some cell ∧ types[i]? = some typ ∧
        conv ParseFloat cell typ = Except.ok v ∧ GoMap.get record name = some v := by
  have hrl : row.length = fields.length := by
    by_contra hne
    simp [rowRecord, hne] at h
  simp only [rowRecord, hrl, ne_eq, not_true_eq_false, if_false] at h
  obtain ⟨ps, hpl, hm, hps⟩ := recordLoop_ok ParseFloat fields types row idx _ _ _ _ h
  simp only [Nat.zero_add] at hps
  subst hm
  refine ⟨GoMap.nodup_keys_setAll ps [] (by simp [GoMap.keys]), ?_, ?_⟩
  · intro k
    rw [GoMap.mem_keys_setAll]
    constructor
    · rintro (hk | ⟨p, hp, hpk⟩)
      · simp [GoMap.keys] at hk
      · obtain ⟨n, hn⟩ := List.getElem?_of_mem hp
        obtain ⟨_, _, _, _, hfn, _⟩ := hps n p hn
        rw [← hpk]
        exact List.mem_iff_getElem?.2 ⟨n, hfn⟩
    · intro hk
      obtain ⟨n, hn⟩ := List.getElem?_of_mem hk
      have hnl : n < ps.length := by
        rw [hpl]
        exact (List.getElem?_eq_some.1 hn).1
      obtain ⟨_, _, _, _, hfn, _⟩ := hps n ps[n] (List.getElem?_eq_getElem hnl)
      rw [hn] at hfn
      exact Or.inr ⟨ps[n], List.getElem_mem _, (Option.some.inj hfn).symm⟩
  · intro i name hname hright
    have hil : i < ps.length := by
      rw [hpl]
      exact (List.getElem?_eq_some.1 hname).1
    obtain ⟨cell, typ, hcell, htyp, hfn, hconv⟩ := hps i ps[i] (List.getElem?_eq_getElem hil)
    rw [hname] at hfn
    have hkey : ps[i].1 = name := (Option.some.inj hfn).symm
    refine ⟨cell, typ, ps[i].2, hcell, htyp, hconv, ?_⟩
    refine GoMap.get_setAll_last ps [] i name ps[i].2 ?_ ?_
    · rw [List.getElem?_eq_getElem hil, ← hkey]
    · intro j' q hij hq heq
      obtain ⟨_, _, _, _, hfq, _⟩ := hps j' q hq
      rw [heq] at hfq
      exact hright j' hij hfq

/-- C20: `parseArray` does not check that the field names are distinct. On a grid with
matching header lengths and fully valid data rows whose header repeats a name it still
succeeds; every record has one key for each distinct field name, so fewer keys than
`fieldLen`; and under a name lies the coerced cell of the rightmost column with it. -/
theorem parseArray_repeated_field_names (f : File) (rows : List (List String))
    (fields types : List String)
    (hrows : f.GetRows "Sheet1" = Except.ok rows)
    (hf : rows[3]? = some fields) (ht : rows[4]? = some types)
    (hlen : fields.length = types.length)
    (hvalid : ∀ (j : Nat) (row : List String), 5 ≤ j → rows[j]? = some row →
      ValidRow ParseFloat fields types row)
    (hdup : ¬ fields.Nodup) :
    ∃ cfgs, parseArray ParseFloat f = Result.ok cfgs ∧ cfgs.length = rows.length - 5 ∧
      ∀ (j : Nat) (record : GoMap), cfgs[j]? = some record →
        (GoMap.keys record).Nodup ∧ (∀ k, k ∈ GoMap.keys record ↔ k ∈ fields) ∧
        (GoMap.keys record).length = fields.dedup.length ∧
        (GoMap.keys record).length < fields.length ∧
        ∃ row, rows[5 + j]? = some row ∧
          ∀ (i : Nat) (name : String), fields[i]? = some name →
            (∀ i' : Nat, i < i' → fields[i']? ≠ some name) →
            ∃ cell typ v, row[i]? = some cell ∧ types[i]? = some typ ∧
              conv ParseFloat cell typ = Except.ok v ∧ GoMap.get record name = some v := by
  obtain ⟨cfgs, hloop⟩ := arrayLoop_of_valid ParseFloat fields types hlen (rows.drop 5) 0 []
    (by
      intro row hrow
      obtain ⟨n, hn⟩ := List.getElem?_of_mem hrow
      rw [List.getElem?_drop] at hn
      exact hvalid (5 + n) row (by omega) hn)
  have hparse := parseArray_rows ParseFloat f rows fields types hrows hf ht hlen
  obtain ⟨recs, hc, hl, hj⟩ := arrayLoop_ok ParseFloat fields types _ _ _ _ hloop
  simp only [List.nil_append] at hc
  subst hc
  refine ⟨cfgs, by rw [hparse, hloop], by simp [hl], ?_⟩
  intro j record hrec
  have hjlt : j < (rows.drop 5).length := by
    rw [← hl]
    exact (List.getElem?_eq_some.1 hrec).1
  have hlt : 5 + j < rows.length := by
    simp only [List.length_drop] at hjlt
    omega
  obtain ⟨r, hr1, hr2⟩ := hj j rows[5 + j] (by
    rw [List.getElem?_drop]; exact List.getElem?_eq_getElem hlt)
  rw [hrec] at hr1
  cases hr1
  obtain ⟨hnd, hkeys, hval⟩ := rowRecord_ok_contents ParseFloat fields types _ _ _ hr2
  have hperm : (GoMap.keys record).Perm fields.dedup :=
    (List.perm_ext_iff_of_nodup hnd (List.nodup_dedup fields)).2
      (fun k => by rw [hkeys k, List.mem_dedup])
  have hcount : (GoMap.keys record).length = fields.dedup.length := hperm.length_eq
  have hless : fields.dedup.length < fields.length := by
    have hle := (List.dedup_sublist fields).length_le
    rcases Nat.lt_or_ge fields.dedup.length fields.length with h | h
    · exact h
    · exact absurd (List.dedup_eq_self.1
        ((List.dedup_sublist fields).eq_of_length (by omega))) hdup
  exact ⟨hnd, hkeys, hcount, by omega, rows[5 + j], List.getElem?_eq_getElem hlt, hval⟩

theorem validRow_repeated :
    ValidRow noFloat ["id", "name", "id"] ["int", "string", "int"] ["1", "Alice", "2"] := by
  refine ⟨rfl, ?_⟩
  intro i cell typ hc ht
  match i, hc, ht with
  | 0, hc, ht =>
    simp only [List.getElem?_cons_zero, Option.some.injEq] at hc ht
    subst hc ht
    exact ⟨Value.int 1, rfl⟩
  | 1, hc, ht =>
    simp only [List.getElem?_cons_succ, List.getElem?_cons_zero, Option.some.injEq] at hc ht
    subst hc ht
    exact ⟨Value.str "Alice", rfl⟩
  | 2, hc, ht =>
    simp only [List.getElem?_cons_succ, List.getElem?_cons_zero, Option.some.injEq] at hc ht
    subst hc ht
    exact ⟨Value.int 2, rfl⟩
  | n + 3, hc, ht => simp at hc

/-- C20, at a header `id, name, id` with one data row `1, Alice, 2`: the record has the
two keys `id` and `name`, and `id` holds 2, the cell of the third column. -/
theorem parseArray_repeated_field_names_witness :
    parseArray noFloat (fileOf [[], [], [], ["id", "name", "id"], ["int", "string", "int"],
      ["1", "Alice", "2"]])
      = Result.ok [[("id", Value.int 2), ("name", Value.str "Alice")]] ∧
    ∃ cfgs, parseArray noFloat (fileOf [[], [], [], ["id", "name", "id"],
      ["int", "string", "int"], ["1", "Alice", "2"]]) = Result.ok cfgs ∧ cfgs.length = 6 - 5 :=
  ⟨by decide,
    (parseArray_repeated_field_names noFloat
      (fileOf [[], [], [], ["id", "name", "id"], ["int", "string", "int"], ["1", "Alice", "2"]])
      [[], [], [], ["id", "name", "id"], ["int", "string", "int"], ["1", "Alice", "2"]]
      ["id", "name", "id"] ["int", "string", "int"] rfl rfl rfl rfl
      (fun j row h5 hrow => by
        match j, h5, hrow with
        | 5, _, hrow =>
          simp only [List.getElem?_cons_succ, List.getElem?_cons_zero,
            Option.some.injEq] at hrow
          subst hrow
          exact validRow_repeated
        | n + 6, _, hrow => simp at hrow)
      (by decide)).imp (fun _ h => ⟨h.1, h.2.1⟩)⟩

theorem extLoop_eq (r : List Char) : ∀ acc : List Char,
    extLoop r acc =
      if '.' ∈ r.takeWhile (fun c => !IsPathSeparator c) then
        '.' :: (((r.takeWhile (fun c => !IsPathSeparator c)).takeWhile
          (fun c => decide (c ≠ '.'))).reverse ++ acc)
      else [] := by
  induction r with
  | nil => intro acc; simp [extLoop]
  | cons c rest ih =>
    intro acc
    by_cases hsep : IsPathSeparator c = true
    · simp [extLoop, hsep]
    · by_cases hdot : c = '.'
      · subst hdot
        simp [extLoop, hsep]
      · have hne : ¬ '.' = c := fun h => hdot h.symm
        simp only [extLoop, hsep, hdot, if_false, ih (c :: acc)]
        simp [hsep, hdot, hne]

/-- On a path that does not end in a separator, `filepath.Ext` is the suffix of the base
name from its last dot on. -/
theorem Ext_eq_lastDotSuffix_Base (path : String) (c : Char) (rest : List Char)
    (hrev : path.data.reverse = c :: rest) (hc : IsPathSeparator c = false) :
    Ext path = lastDotSuffix (Base path) := by
  have hne : path.data ≠ [] := by
    intro h
    rw [h] at hrev
    simp at hrev
  have hstrip : path.data.reverse.dropWhile IsPathSeparator = path.data.reverse := by
    rw [hrev]
    simp [List.dropWhile, hc]
  have hlast : (path.data.reverse.takeWhile (fun c => !IsPathSeparator c)).reverse ≠ [] := by
    rw [hrev]
    simp [List.takeWhile, hc]
  have hbase : Base path
      = String.mk (path.data.reverse.takeWhile (fun c => !IsPathSeparator c)).reverse := by
    simp only [Base, hne, if_false, hstrip]
    simp [hlast]
  rw [hbase]
  simp only [Ext, lastDotSuffix, extLoop_eq, List.mem_reverse, List.reverse_reverse,
    List.append_nil]
  split <;> rfl

theorem parseExcel_opens (env : Env) (xlsxName : String) (t : List Event) :
    ∃ evs, (parseExcel ParseFloat env xlsxName t).2 = t ++ Event.openFile xlsxName :: evs := by
  have hw : ∀ (fileName : String) (parsed : Result Cfg) (evs : List Event),
      ∃ evs', (writeJson env xlsxName fileName parsed
        (t ++ Event.openFile xlsxName :: evs)).2 = t ++ Event.openFile xlsxName :: evs' := by
    intro fileName parsed evs
    unfold writeJson
    cases parsed with
    | fault => exact ⟨evs ++ [Event.close xlsxName], by simp⟩
    | err e => exact ⟨evs ++ [Event.close xlsxName], by simp⟩
    | ok cfgs =>
      simp only
      split
      · exact ⟨_, by simp; rfl⟩
      · split
        · exact ⟨_, by simp; rfl⟩
        · exact ⟨_, by simp; rfl⟩
  unfold parseExcel
  split
  · exact ⟨[], rfl⟩
  · simp only
    split
    · exact ⟨_, by simp; rfl⟩
    · split
      · exact ⟨_, by simp; rfl⟩
      · split
        · simpa using hw _ _ _
        · split
          · simpa using hw _ _ _
          · exact ⟨_, by simp; rfl⟩

theorem walkFunc_of_dispatched (env : Env) (path : String) (fi : FileInfo)
    (err : Option String) (t : List Event) (h : Dispatched path fi) :
    walkFunc ParseFloat env path (some fi) err t = parseExcel ParseFloat env path t := by
  obtain ⟨h1, h2, h3⟩ := h
  simp [walkFunc, h1, h2, h3]

theorem walkFunc_of_not_dispatched (env : Env) (path : String) (fi : FileInfo)
    (err : Option String) (t : List Event) (h : ¬ Dispatched path fi) :
    walkFunc ParseFloat env path (some fi) err t = (Outcome.nil, t) := by
  simp only [walkFunc]
  by_cases h1 : fi.IsDir = true
  · simp [h1]
  · by_cases h2 : HasPrefix (Base path) "~$" = true
    · simp [h1, h2]
    · by_cases h3 : Ext path = ".xlsx" ∨ Ext path = ".xls"
      · exact absurd ⟨by simpa using h1, by simpa using h2, h3⟩ h
      · simp [h1, h2, h3]

/-- C11 as stated fails: for an entry whose `Lstat` failed the walker hands over a nil
`FileInfo`, and `walkFunc` faults at `info.IsDir()`; it does not return nil, although
the entry `gone.txt` has no spreadsheet extension. -/
theorem walkFunc_nil_info_counterexample :
    walkFunc noFloat sampleEnv "/data/gone.txt" none
        (some "lstat /data/gone.txt: no such file or directory") []
      = (Outcome.fault, []) ∧
    walkFunc noFloat sampleEnv "/data/gone.txt" none
        (some "lstat /data/gone.txt: no such file or directory") []
      ≠ (Outcome.nil, []) ∧
    Ext "/data/gone.txt" = ".txt" := by
  refine ⟨rfl, by decide, by decide⟩

/-- C11, amended: for a visited entry that comes with its file info, `walkFunc` hands
the path to `parseExcel`, which opens the file, if and only if the entry is not a
directory, its base name does not start with `~$`, and its extension is exactly `.xlsx`
or `.xls`; otherwise it returns nil and makes no call at all. The extension is that of
`filepath.Ext`, which on a path not ending in a separator is the suffix of the base name
from its last dot. So `~$report.xlsx` is never opened, and `notes.txt` and `a.XLSX` are
ignored. -/
theorem walkFunc_dispatch_iff (env : Env) (path : String) (fi : FileInfo)
    (err : Option String) (t : List Event) :
    ((∃ evs, (walkFunc ParseFloat env path (some fi) err t).2
        = t ++ Event.openFile path :: evs) ↔
      fi.IsDir = false ∧ HasPrefix (Base path) "~$" = false ∧
        (Ext path = ".xlsx" ∨ Ext path = ".xls")) ∧
    (Dispatched path fi →
      walkFunc ParseFloat env path (some fi) err t = parseExcel ParseFloat env path t) ∧
    (¬ Dispatched path fi →
      walkFunc ParseFloat env path (some fi) err t = (Outcome.nil, t)) ∧
    (∀ (c : Char) (rest : List Char), path.data.reverse = c :: rest →
      IsPathSeparator c = false → Ext path = lastDotSuffix (Base path)) ∧
    walkFunc ParseFloat env "~$report.xlsx" (some ⟨false⟩) err t = (Outcome.nil, t) ∧
    walkFunc ParseFloat env "sub/~$report.xlsx" (some ⟨false⟩) err t = (Outcome.nil, t) ∧
    walkFunc ParseFloat env "notes.txt" (some ⟨false⟩) err t = (Outcome.nil, t) ∧
    walkFunc ParseFloat env "a.XLSX" (some ⟨false⟩) err t = (Outcome.nil, t) ∧
    walkFunc ParseFloat env "dir.xlsx" (some ⟨true⟩) err t = (Outcome.nil, t) ∧
    walkFunc ParseFloat env "sub/a.xlsx" (some ⟨false⟩) err t
      = parseExcel ParseFloat env "sub/a.xlsx" t ∧
    walkFunc ParseFloat env "b.xls" (some ⟨false⟩) err t
      = parseExcel ParseFloat env "b.xls" t := by
  refine ⟨?_, walkFunc_of_dispatched ParseFloat env path fi err t,
    walkFunc_of_not_dispatched ParseFloat env path fi err t,
    Ext_eq_lastDotSuffix_Base path, ?_, ?_, ?_, ?_, ?_, ?_, ?_⟩
  · constructor
    · rintro ⟨evs, hevs⟩
      by_contra hnot
      rw [walkFunc_of_not_dispatched ParseFloat env path fi err t hnot] at hevs
      have := congrArg List.length hevs
      simp at this
    · intro h
      rw [walkFunc_of_dispatched ParseFloat env path fi err t h]
      exact parseExcel_opens ParseFloat env path t
  · exact walkFunc_of_not_dispatched ParseFloat env _ _ err t (by
      rintro ⟨_, h, _⟩; exact absurd h (by decide))
  · exact walkFunc_of_not_dispatched ParseFloat env _ _ err t (by
      rintro ⟨_, h, _⟩; exact absurd h (by decide))
  · exact walkFunc_of_not_dispatched ParseFloat env _ _ err t (by
      rintro ⟨_, _, h⟩; exact absurd h (by decide))
  · exact walkFunc_of_not_dispatched ParseFloat env _ _ err t (by
      rintro ⟨_, _, h⟩; exact absurd h (by decide))
  · exact walkFunc_of_not_dispatched ParseFloat env _ _ err t (by
      rintro ⟨h, _⟩; exact absurd h (by decide))
  · exact walkFunc_of_dispatched ParseFloat env _ _ err t ⟨rfl, by decide, by decide⟩
  · exact walkFunc_of_dispatched ParseFloat env _ _ err t ⟨rfl, by decide, by decide⟩

theorem parseExcel_of_cells (env : Env) (xlsxName : String) (t : List Event) (f : File)
    (fileName cfgType : String) (hopen : env.OpenFile t xlsxName = Except.ok f)
    (hB1 : f.GetCellValue "Sheet1" "B1" = Except.ok fileName)
    (hB2 : f.GetCellValue "Sheet1" "B2" = Except.ok cfgType) :
    parseExcel ParseFloat env xlsxName t =
      if cfgType = "列表" then
        writeJson env xlsxName fileName (Result.map Cfg.list (parseArray ParseFloat f))
          (t ++ [Event.openFile xlsxName, Event.getCellValue xlsxName "Sheet1" "B1",
            Event.getCellValue xlsxName "Sheet1" "B2", Event.getRows xlsxName "Sheet1"])
      else if cfgType = "单项" then
        writeJson env xlsxName fileName (Result.map Cfg.single (parseSingle ParseFloat f))
          (t ++ [Event.openFile xlsxName, Event.getCellValue xlsxName "Sheet1" "B1",
            Event.getCellValue xlsxName "Sheet1" "B2", Event.getRows xlsxName "Sheet1"])
      else
        (Outcome.failed (ExcelError.cfgType xlsxName),
          t ++ [Event.openFile xlsxName, Event.getCellValue xlsxName "Sheet1" "B1",
            Event.getCellValue xlsxName "Sheet1" "B2", Event.close xlsxName]) := by
  simp only [parseExcel, hopen, hB1, hB2, List.append_assoc, List.cons_append,
    List.nil_append]

/-- C12: once the workbook is open and `B1`, `B2` are read, every label in `B2` other
than `列表` and `单项` makes `parseExcel` return the unsupported-shape error, which
names the file, after no further call than the closing of the workbook: no `GetRows`,
no parser, no directory, no output file. With `列表` the result is that of `parseArray`,
with `单项` that of `parseSingle`; an error of the parser comes back wrapped with the
file path, and its value is what gets marshalled and written. -/
theorem parseExcel_by_label (env : Env) (xlsxName : String) (t : List Event) (f : File)
    (fileName cfgType : String) (hopen : env.OpenFile t xlsxName = Except.ok f)
    (hB1 : f.GetCellValue "Sheet1" "B1" = Except.ok fileName)
    (hB2 : f.GetCellValue "Sheet1" "B2" = Except.ok cfgType) :
    (cfgType ≠ "列表" → cfgType ≠ "单项" →
      parseExcel ParseFloat env xlsxName t =
        (Outcome.failed (ExcelError.cfgType xlsxName),
          t ++ [Event.openFile xlsxName, Event.getCellValue xlsxName "Sheet1" "B1",
            Event.getCellValue xlsxName "Sheet1" "B2", Event.close xlsxName])) ∧
    (cfgType = "列表" →
      parseExcel ParseFloat env xlsxName t =
        writeJson env xlsxName fileName (Result.map Cfg.list (parseArray ParseFloat f))
          (t ++ [Event.openFile xlsxName, Event.getCellValue xlsxName "Sheet1" "B1",
            Event.getCellValue xlsxName "Sheet1" "B2", Event.getRows xlsxName "Sheet1"]) ∧
      ∀ e, parseArray ParseFloat f = Result.err e →
        parseExcel ParseFloat env xlsxName t =
          (Outcome.failed (ExcelError.parse xlsxName e),
            t ++ [Event.openFile xlsxName, Event.getCellValue xlsxName "Sheet1" "B1",
              Event.getCellValue xlsxName "Sheet1" "B2", Event.getRows xlsxName "Sheet1",
              Event.close xlsxName])) ∧
    (cfgType = "单项" →
      parseExcel ParseFloat env xlsxName t =
        writeJson env xlsxName fileName (Result.map Cfg.single (parseSingle ParseFloat f))
          (t ++ [Event.openFile xlsxName, Event.getCellValue xlsxName "Sheet1" "B1",
            Event.getCellValue xlsxName "Sheet1" "B2", Event.getRows xlsxName "Sheet1"]) ∧
      ∀ e, parseSingle ParseFloat f = Result.err e →
        parseExcel ParseFloat env xlsxName t =
          (Outcome.failed (ExcelError.parse xlsxName e),
            t ++ [Event.openFile xlsxName, Event.getCellValue xlsxName "Sheet1" "B1",
              Event.getCellValue xlsxName "Sheet1" "B2", Event.getRows xlsxName "Sheet1",
              Event.close xlsxName])) := by
  have hrun := parseExcel_of_cells ParseFloat env xlsxName t f fileName cfgType hopen hB1 hB2
  refine ⟨?_, ?_, ?_⟩
  · intro h1 h2
    rw [hrun]
    simp only [h1, h2, if_false]
  · intro h
    have hw : parseExcel ParseFloat env xlsxName t =
        writeJson env xlsxName fileName (Result.map Cfg.list (parseArray ParseFloat f))
          (t ++ [Event.openFile xlsxName, Event.getCellValue xlsxName "Sheet1" "B1",
            Event.getCellValue xlsxName "Sheet1" "B2", Event.getRows xlsxName "Sheet1"]) := by
      rw [hrun]
      simp only [h, if_true]
    refine ⟨hw, ?_⟩
    intro e he
    rw [hw, he]
    simp [Result.map, writeJson]
  · intro h
    subst h
    have hne : ¬ ("单项" : String) = "列表" := by decide
    have hw : parseExcel ParseFloat env xlsxName t =
        writeJson env xlsxName fileName (Result.map Cfg.single (parseSingle ParseFloat f))
          (t ++ [Event.openFile xlsxName, Event.getCellValue xlsxName "Sheet1" "B1",
            Event.getCellValue xlsxName "Sheet1" "B2", Event.getRows xlsxName "Sheet1"]) := by
      rw [hrun]
      simp only [hne, if_false, if_true]
    refine ⟨hw, ?_⟩
    intro e he
    rw [hw, he]
    simp [Result.map, writeJson]

/-- C12, at a workbook whose cell `B2` holds `表格`: the four calls and the error. -/
theorem parseExcel_by_label_witness :
    parseExcel noFloat
      (envOf "/data" "/out" (fileOf [["", "cfg"], ["", "表格"], [], ["id"], ["int"], ["1"]]))
      "/data/a.xlsx" [] =
      (Outcome.failed (ExcelError.cfgType "/data/a.xlsx"),
        [Event.openFile "/data/a.xlsx", Event.getCellValue "/data/a.xlsx" "Sheet1" "B1",
          Event.getCellValue "/data/a.xlsx" "Sheet1" "B2", Event.close "/data/a.xlsx"]) :=
  (parseExcel_by_label noFloat
    (envOf "/data" "/out" (fileOf [["", "cfg"], ["", "表格"], [], ["id"], ["int"], ["1"]]))
    "/data/a.xlsx" [] (fileOf [["", "cfg"], ["", "表格"], [], ["id"], ["int"], ["1"]])
    "cfg" "表格" rfl rfl rfl).1 (by decide) (by decide)

theorem writeJson_nil (env : Env) (xlsxName fileName : String) (parsed : Result Cfg)
    (t t' : List Event) (h : writeJson env xlsxName fileName parsed t = (Outcome.nil, t')) :
    ∃ cfgs, parsed = Result.ok cfgs ∧
      t' = t ++ [Event.mkdirAll (Dir (jsonFilePath env xlsxName fileName)),
        Event.createFile (jsonFilePath env xlsxName fileName),
        Event.write (jsonFilePath env xlsxName fileName) (MarshalIndent cfgs),
        Event.closeOut (jsonFilePath env xlsxName fileName), Event.close xlsxName] := by
  unfold writeJson at h
  cases parsed with
  | fault => simp at h
  | err e => simp at h
  | ok cfgs =>
    refine ⟨cfgs, rfl, ?_⟩
    simp only at h
    split at h
    · simp at h
    · split at h
      · simp at h
      · simp only [Prod.mk.injEq, true_and] at h
        exact h.symm

theorem writeJson_failed (env : Env) (xlsxName fileName : String) (parsed : Result Cfg)
    (t t' : List Event) (e : ExcelError)
    (h : writeJson env xlsxName fileName parsed t = (Outcome.failed e, t')) :
    ∃ evs, t' = t ++ evs ∧ (∀ p doc, Event.write p doc ∉ evs) ∧
      ∀ x, Event.openFile x ∉ evs := by
  unfold writeJson at h
  cases parsed with
  | fault => simp at h
  | err e' =>
    simp only [Prod.mk.injEq] at h
    exact ⟨_, h.2.symm, by simp, by simp⟩
  | ok cfgs =>
    simp only at h
    split at h
    · simp only [Prod.mk.injEq] at h
      exact ⟨_, h.2.symm, by simp, by simp⟩
    · split at h
      · simp only [Prod.mk.injEq] at h
        exact ⟨_, h.2.symm, by simp, by simp⟩
      · simp at h

theorem parseExcel_nil (env : Env) (xlsxName : String) (t t' : List Event)
    (h : parseExcel ParseFloat env xlsxName t = (Outcome.nil, t')) :
    ∃ f fileName cfgs, env.OpenFile t xlsxName = Except.ok f ∧
      f.GetCellValue "Sheet1" "B1" = Except.ok fileName ∧
      ParsedAs ParseFloat f cfgs ∧
      t' = t ++ conversionCalls xlsxName (jsonFilePath env xlsxName fileName)
        (MarshalIndent cfgs) := by
  cases hopen : env.OpenFile t xlsxName with
  | error e => simp [parseExcel, hopen] at h
  | ok f =>
    cases hB1 : f.GetCellValue "Sheet1" "B1" with
    | error e => simp [parseExcel, hopen, hB1] at h
    | ok fileName =>
      cases hB2 : f.GetCellValue "Sheet1" "B2" with
      | error e => simp [parseExcel, hopen, hB1, hB2] at h
      | ok cfgType =>
        rw [parseExcel_of_cells ParseFloat env xlsxName t f fileName cfgType hopen hB1 hB2] at h
        by_cases hlist : cfgType = "列表"
        · simp only [hlist, if_true] at h
          obtain ⟨cfgs, hparsed, ht⟩ := writeJson_nil env xlsxName _ _ _ _ h
          exact ⟨f, fileName, cfgs, rfl, hB1, Or.inl ⟨by rw [hB2, hlist], hparsed⟩,
            by rw [ht]; simp [conversionCalls]⟩
        · by_cases hsingle : cfgType = "单项"
          · simp only [hlist, hsingle, if_false, if_true] at h
            obtain ⟨cfgs, hparsed, ht⟩ := writeJson_nil env xlsxName _ _ _ _ h
            exact ⟨f, fileName, cfgs, rfl, hB1, Or.inr ⟨by rw [hB2, hsingle], hparsed⟩,
              by rw [ht]; simp [conversionCalls]⟩
          · simp [hlist, hsingle] at h

theorem parseExcel_failed (env : Env) (xlsxName : String) (t t' : List Event)
    (e : ExcelError) (h : parseExcel ParseFloat env xlsxName t = (Outcome.failed e, t')) :
    ∃ evs, t' = t ++ evs ∧ (∀ p doc, Event.write p doc ∉ evs) ∧
      ∀ x, Event.openFile x ∈ evs → x = xlsxName := by
  have hw : ∀ parsed fileName,
      writeJson env xlsxName fileName parsed
        (t ++ [Event.openFile xlsxName, Event.getCellValue xlsxName "Sheet1" "B1",
          Event.getCellValue xlsxName "Sheet1" "B2", Event.getRows xlsxName "Sheet1"])
        = (Outcome.failed e, t') →
      ∃ evs, t' = t ++ evs ∧ (∀ p doc, Event.write p doc ∉ evs) ∧
        ∀ x, Event.openFile x ∈ evs → x = xlsxName := by
    intro parsed fileName hrun
    obtain ⟨evs, ht, hwr, ho⟩ := writeJson_failed env xlsxName _ _ _ _ e hrun
    refine ⟨_, by rw [ht, List.append_assoc], ?_, ?_⟩
    · intro p doc hmem
      simp only [List.cons_append, List.nil_append, List.mem_cons] at hmem
      rcases hmem with hmem | hmem | hmem | hmem | hmem
      · cases hmem
      · cases hmem
      · cases hmem
      · cases hmem
      · exact hwr p doc hmem
    · intro x hmem
      simp only [List.cons_append, List.nil_append, List.mem_cons] at hmem
      rcases hmem with hmem | hmem | hmem | hmem | hmem
      · cases hmem; rfl
      · cases hmem
      · cases hmem
      · cases hmem
      · exact absurd hmem (ho x)
  cases hopen : env.OpenFile t xlsxName with
  | error e' =>
    simp only [parseExcel, hopen, Prod.mk.injEq] at h
    exact ⟨_, h.2.symm, by simp, by simp⟩
  | ok f =>
    cases hB1 : f.GetCellValue "Sheet1" "B1" with
    | error e' =>
      simp only [parseExcel, hopen, hB1, Prod.mk.injEq] at h
      exact ⟨_, by rw [← h.2, List.append_assoc], by simp, by simp⟩
    | ok fileName =>
      cases hB2 : f.GetCellValue "Sheet1" "B2" with
      | error e' =>
        simp only [parseExcel, hopen, hB1, hB2, Prod.mk.injEq] at h
        exact ⟨_, by rw [← h.2, List.append_assoc, List.append_assoc], by simp, by simp⟩
      | ok cfgType =>
        rw [parseExcel_of_cells ParseFloat env xlsxName t f fileName cfgType hopen hB1 hB2] at h
        split at h
        · exact hw _ _ h
        · split at h
          · exact hw _ _ h
          · simp only [Prod.mk.injEq] at h
            exact ⟨_, h.2.symm, by simp, by simp⟩

theorem walkFunc_trace (env : Env) (path : String) (info : Option FileInfo)
    (err : Option String) (t : List Event) :
    ∃ evs, (walkFunc ParseFloat env path info err t).2 = t ++ evs := by
  cases info with
  | none => exact ⟨[], by simp [walkFunc]⟩
  | some fi =>
    by_cases h : Dispatched path fi
    · rw [walkFunc_of_dispatched ParseFloat env path fi err t h]
      obtain ⟨evs, hevs⟩ := parseExcel_opens ParseFloat env path t
      exact ⟨_, hevs⟩
    · rw [walkFunc_of_not_dispatched ParseFloat env path fi err t h]
      exact ⟨[], by simp⟩

theorem Walk_cons (env : Env) (e : Entry) (rest : List Entry) (t t' : List Event)
    (o : Outcome) (h : walkFunc ParseFloat env e.path e.info e.err t = (o, t')) :
    Walk ParseFloat env (e :: rest) t
      = if o = Outcome.nil then Walk ParseFloat env rest t' else (o, t') := by
  rw [Walk, h]
  cases o <;> simp

theorem Walk_trace (env : Env) : ∀ (es : List Entry) (t : List Event),
    ∃ evs, (Walk ParseFloat env es t).2 = t ++ evs := by
  intro es
  induction es with
  | nil => intro t; exact ⟨[], by simp [Walk]⟩
  | cons e rest ih =>
    intro t
    obtain ⟨evs, hevs⟩ := walkFunc_trace ParseFloat env e.path e.info e.err t
    cases hw : walkFunc ParseFloat env e.path e.info e.err t with
    | mk o t' =>
      rw [hw] at hevs
      simp only at hevs
      rw [Walk_cons ParseFloat env e rest t t' o hw]
      by_cases ho : o = Outcome.nil
      · obtain ⟨evs', hevs'⟩ := ih t'
        exact ⟨evs ++ evs', by simp only [ho, if_true]; rw [hevs', hevs, List.append_assoc]⟩
      · exact ⟨evs, by simp only [ho, if_false]; exact hevs⟩

theorem Walk_append (env : Env) : ∀ (pre rest : List Entry) (t t₁ : List Event),
    Walk ParseFloat env pre t = (Outcome.nil, t₁) →
    Walk ParseFloat env (pre ++ rest) t = Walk ParseFloat env rest t₁ := by
  intro pre
  induction pre with
  | nil =>
    intro rest t t₁ h
    simp only [Walk, Prod.mk.injEq, true_and] at h
    simp [h]
  | cons e pre ih =>
    intro rest t t₁ h
    cases hw : walkFunc ParseFloat env e.path e.info e.err t with
    | mk o t' =>
      rw [Walk_cons ParseFloat env e pre t t' o hw] at h
      rw [List.cons_append, Walk_cons ParseFloat env e (pre ++ rest) t t' o hw]
      by_cases ho : o = Outcome.nil
      · simp only [ho, if_true] at h ⊢
        exact ih rest t' t₁ h
      · simp only [ho, if_false, Prod.mk.injEq] at h
        exact h.1.elim

theorem Walk_nil_converted (env : Env) : ∀ (pre : List Entry) (t t₁ : List Event),
    Walk ParseFloat env pre t = (Outcome.nil, t₁) →
    ∀ x ∈ pre, ∀ fx : FileInfo, x.info = some fx → Dispatched x.path fx →
      ∃ a b f fileName cfgs, env.OpenFile a x.path = Except.ok f ∧
        f.GetCellValue "Sheet1" "B1" = Except.ok fileName ∧ ParsedAs ParseFloat f cfgs ∧
        t₁ = a ++ conversionCalls x.path
          (jsonFilePath env x.path fileName) (MarshalIndent cfgs) ++ b := by
  intro pre
  induction pre with
  | nil => intro t t₁ _ x hx; simp at hx
  | cons e pre ih =>
    intro t t₁ h x hx fx hinfo hdisp
    cases hw : walkFunc ParseFloat env e.path e.info e.err t with
    | mk o t' =>
      rw [Walk_cons ParseFloat env e pre t t' o hw] at h
      by_cases ho : o = Outcome.nil
      · subst ho
        simp only [if_true] at h
        rcases List.mem_cons.1 hx with rfl | hx'
        · rw [hinfo, walkFunc_of_dispatched ParseFloat env x.path fx x.err t hdisp] at hw
          obtain ⟨f, fileName, cfgs, hopen, hB1, hparsed, ht'⟩ :=
            parseExcel_nil ParseFloat env x.path t t' hw
          obtain ⟨evs, hevs⟩ := Walk_trace ParseFloat env pre t'
          rw [h] at hevs
          simp only at hevs
          exact ⟨t, evs, f, fileName, cfgs, hopen, hB1, hparsed, by rw [hevs, ht']⟩
        · exact ih t' t₁ h x hx' fx hinfo hdisp
      · simp only [ho, if_false, Prod.mk.injEq] at h
        exact h.1.elim

set_option maxRecDepth 20000 in
/-- C13 as stated fails in its last part: a list-shape sheet whose float cell holds `NaN`
parses, `json.MarshalIndent` fails on it, the error is dropped, no byte is written and
`parseExcel` returns nil. So when the next file fails, the file before it has been
visited to the end but has not been converted: no document was written for it. -/
theorem Walk_unconverted_earlier_file_counterexample :
    parseArray sampleFloat (fileOf [["", "cfg"], ["", "列表"], [], ["hp"], ["float"], ["NaN"]])
      = Result.ok [[("hp", Value.float 0x7FF8000000000001)]] ∧
    parseExcel sampleFloat sampleNaNEnv "/data/a.xlsx" []
      = (Outcome.nil, conversionCalls "/data/a.xlsx" "/out/json/cfg.json" none) ∧
    Walk sampleFloat sampleNaNEnv
        [⟨"/data/a.xlsx", some ⟨false⟩, none⟩, ⟨"/data/b.xlsx", some ⟨false⟩, none⟩] []
      = (Outcome.failed (ExcelError.cfgType "/data/b.xlsx"),
          conversionCalls "/data/a.xlsx" "/out/json/cfg.json" none ++
            [Event.openFile "/data/b.xlsx", Event.getCellValue "/data/b.xlsx" "Sheet1" "B1",
              Event.getCellValue "/data/b.xlsx" "Sheet1" "B2", Event.close "/data/b.xlsx"]) ∧
    ¬ ∃ p doc, Event.write p (some doc) ∈
        (Walk sampleFloat sampleNaNEnv
          [⟨"/data/a.xlsx", some ⟨false⟩, none⟩, ⟨"/data/b.xlsx", some ⟨false⟩, none⟩] []).2 := by
  have hwalk : Walk sampleFloat sampleNaNEnv
        [⟨"/data/a.xlsx", some ⟨false⟩, none⟩, ⟨"/data/b.xlsx", some ⟨false⟩, none⟩] []
      = (Outcome.failed (ExcelError.cfgType "/data/b.xlsx"),
          conversionCalls "/data/a.xlsx" "/out/json/cfg.json" none ++
            [Event.openFile "/data/b.xlsx", Event.getCellValue "/data/b.xlsx" "Sheet1" "B1",
              Event.getCellValue "/data/b.xlsx" "Sheet1" "B2", Event.close "/data/b.xlsx"]) := rfl
  refine ⟨rfl, rfl, hwalk, ?_⟩
  rintro ⟨p, doc, h⟩
  rw [hwalk] at h
  simp [conversionCalls] at h

/-- C13, amended: a failure of `parseExcel` on one file ends the walk. For every
dispatched file `walkFunc` returns exactly what `parseExcel` returns. So in a walk that
visits the entries in order and stops at the first return that is not nil, if the
entries before `bad` all returned nil and `parseExcel` fails on `bad`, the walk returns
that error whatever entries follow: the calls made are those up to `bad`, the failing
file wrote nothing, no file after it is opened, and every dispatched file before it has
run `parseExcel` to its end: it was opened and read, its output file was created,
written and closed, and what was written is `json.MarshalIndent` of the value its parser
returned, hence the document of the sheet whenever that call succeeds. -/
theorem Walk_stops_at_first_failure (env : Env) (pre post : List Entry) (bad : Entry)
    (fi : FileInfo) (e : ExcelError) (t t₁ t₂ : List Event)
    (hpre : Walk ParseFloat env pre t = (Outcome.nil, t₁))
    (hinfo : bad.info = some fi) (hdisp : Dispatched bad.path fi)
    (hbad : parseExcel ParseFloat env bad.path t₁ = (Outcome.failed e, t₂)) :
    (∀ (p : String) (fp : FileInfo) (er : Option String) (s : List Event),
      Dispatched p fp →
      walkFunc ParseFloat env p (some fp) er s = parseExcel ParseFloat env p s) ∧
    Walk ParseFloat env (pre ++ bad :: post) t = (Outcome.failed e, t₂) ∧
    (∃ evs₁ evs₂, t₁ = t ++ evs₁ ∧ t₂ = t₁ ++ evs₂ ∧
      (∀ p d, Event.write p d ∉ evs₂) ∧
      ∀ x, Event.openFile x ∈ evs₂ → x = bad.path) ∧
    (∀ x ∈ pre, ∀ fx : FileInfo, x.info = some fx → Dispatched x.path fx →
      ∃ a b f fileName cfgs, env.OpenFile a x.path = Except.ok f ∧
        f.GetCellValue "Sheet1" "B1" = Except.ok fileName ∧ ParsedAs ParseFloat f cfgs ∧
        t₂ = a ++ conversionCalls x.path
          (jsonFilePath env x.path fileName) (MarshalIndent cfgs) ++ b ∧
        ∀ doc, MarshalIndent cfgs = some doc →
          Event.write (jsonFilePath env x.path fileName) (some doc) ∈ t₂) := by
  obtain ⟨evs₂, ht₂, hwrite, hopen⟩ := parseExcel_failed ParseFloat env bad.path t₁ t₂ e hbad
  obtain ⟨evs₁, hevs₁⟩ := Walk_trace ParseFloat env pre t
  rw [hpre] at hevs₁
  simp only at hevs₁
  have hwalk : walkFunc ParseFloat env bad.path bad.info bad.err t₁ = (Outcome.failed e, t₂) := by
    rw [hinfo, walkFunc_of_dispatched ParseFloat env bad.path fi bad.err t₁ hdisp, hbad]
  refine ⟨fun p fp er s h => walkFunc_of_dispatched ParseFloat env p fp er s h, ?_,
    ⟨evs₁, evs₂, hevs₁, ht₂, hwrite, hopen⟩, ?_⟩
  · rw [Walk_append ParseFloat env pre (bad :: post) t t₁ hpre,
      Walk_cons ParseFloat env bad post t₁ t₂ _ hwalk]
    simp
  · intro x hx fx hxi hxd
    obtain ⟨a, b, f, fileName, cfgs, ho, hB1, hparsed, hconv⟩ :=
      Walk_nil_converted ParseFloat env pre t t₁ hpre x hx fx hxi hxd
    have ht : t₂ = a ++ conversionCalls x.path (jsonFilePath env x.path fileName)
        (MarshalIndent cfgs) ++ (b ++ evs₂) := by
      rw [ht₂, hconv]
      simp
    refine ⟨a, b ++ evs₂, f, fileName, cfgs, ho, hB1, hparsed, ht, ?_⟩
    intro doc hdoc
    rw [ht, hdoc]
    simp [conversionCalls]

set_option maxRecDepth 20000 in
/-- C13, amended, at the sample tree: the directory `/data` and the workbook `a.xlsx`
are visited and `a.xlsx` is converted, `b.xlsx` fails on its label, and `c.xlsx` is
never opened. -/
theorem Walk_stops_at_first_failure_witness :
    Walk noFloat sampleEnv
      ([⟨"/data", some ⟨true⟩, none⟩, ⟨"/data/a.xlsx", some ⟨false⟩, none⟩] ++
        ⟨"/data/b.xlsx", some ⟨false⟩, none⟩ :: [⟨"/data/c.xlsx", some ⟨false⟩, none⟩]) []
      = (Outcome.failed (ExcelError.cfgType "/data/b.xlsx"),
          conversionCalls "/data/a.xlsx" "/out/json/cfg.json"
              (some (JsonDoc.object [("maxHP", Value.int 100)])) ++
            [Event.openFile "/data/b.xlsx", Event.getCellValue "/data/b.xlsx" "Sheet1" "B1",
              Event.getCellValue "/data/b.xlsx" "Sheet1" "B2", Event.close "/data/b.xlsx"]) :=
  (Walk_stops_at_first_failure noFloat sampleEnv
    [⟨"/data", some ⟨true⟩, none⟩, ⟨"/data/a.xlsx", some ⟨false⟩, none⟩]
    [⟨"/data/c.xlsx", some ⟨false⟩, none⟩] ⟨"/data/b.xlsx", some ⟨false⟩, none⟩ ⟨false⟩
    (ExcelError.cfgType "/data/b.xlsx") []
    (conversionCalls "/data/a.xlsx" "/out/json/cfg.json"
      (some (JsonDoc.object [("maxHP", Value.int 100)])))
    (conversionCalls "/data/a.xlsx" "/out/json/cfg.json"
        (some (JsonDoc.object [("maxHP", Value.int 100)])) ++
      [Event.openFile "/data/b.xlsx", Event.getCellValue "/data/b.xlsx" "Sheet1" "B1",
        Event.getCellValue "/data/b.xlsx" "Sheet1" "B2", Event.close "/data/b.xlsx"])
    rfl rfl ⟨rfl, by decide, by decide⟩ rfl).2.1

/-- C14 as stated fails: handed the error of a directory that cannot be read,
`walkFunc` returns nil, and the walk goes on to convert the next file and ends with nil:
the error of the walker reaches nobody. -/
theorem walkFunc_walker_error_counterexample :
    walkFunc noFloat sampleEnv "/data/locked" (some ⟨true⟩)
        (some "open /data/locked: permission denied") [] = (Outcome.nil, []) ∧
    (¬ ∃ e, (walkFunc noFloat sampleEnv "/data/locked" (some ⟨true⟩)
        (some "open /data/locked: permission denied") []).1 = Outcome.failed e) ∧
    (Walk noFloat sampleEnv
        [⟨"/data/locked", some ⟨true⟩, some "open /data/locked: permission denied"⟩,
          ⟨"/data/a.xlsx", some ⟨false⟩, none⟩] []).1 = Outcome.nil := by
  refine ⟨rfl, ?_, ?_⟩
  · rintro ⟨e, he⟩
    have h0 : (walkFunc noFloat sampleEnv "/data/locked" (some ⟨true⟩)
        (some "open /data/locked: permission denied") []).1 = Outcome.nil := rfl
    rw [h0] at he
    cases he
  · decide

/-- C14, amended: `walkFunc` never reads the error the walker hands to it. Its result is
the same for every such error, so it returns an error only when `parseExcel` does; for a
directory it returns nil and makes no call, whatever the error, and the walk goes on
with the next entry. -/
theorem walkFunc_ignores_walker_error (env : Env) (path : String) (info : Option FileInfo)
    (err err' : Option String) (t : List Event) :
    walkFunc ParseFloat env path info err t = walkFunc ParseFloat env path info err' t ∧
    (∀ e, (walkFunc ParseFloat env path info err t).1 = Outcome.failed e →
      (parseExcel ParseFloat env path t).1 = Outcome.failed e) ∧
    (∀ fi : FileInfo, info = some fi → fi.IsDir = true →
      walkFunc ParseFloat env path info err t = (Outcome.nil, t) ∧
      ∀ rest, Walk ParseFloat env (⟨path, info, err⟩ :: rest) t
        = Walk ParseFloat env rest t) := by
  refine ⟨rfl, ?_, ?_⟩
  · intro e he
    cases info with
    | none => simp [walkFunc] at he
    | some fi =>
      by_cases h : Dispatched path fi
      · rw [walkFunc_of_dispatched ParseFloat env path fi err t h] at he
        exact he
      · rw [walkFunc_of_not_dispatched ParseFloat env path fi err t h] at he
        simp at he
  · intro fi hinfo hdir
    have hw : walkFunc ParseFloat env path info err t = (Outcome.nil, t) := by
      subst hinfo
      exact walkFunc_of_not_dispatched ParseFloat env path fi err t (by
        rintro ⟨h, _⟩
        rw [hdir] at h
        exact absurd h (by decide))
    refine ⟨hw, ?_⟩
    intro rest
    rw [Walk_cons ParseFloat env ⟨path, info, err⟩ rest t t Outcome.nil hw]
    simp

theorem insertMember_perm (p : String × Value) (o : JsonObject) :
    (insertMember p o).Perm (p :: o) := by
  induction o with
  | nil => exact List.Perm.refl _
  | cons q rest ih =>
    by_cases h : p.1.data < q.1.data
    · simp only [insertMember, h, if_true]
      exact List.Perm.refl _
    · simp only [insertMember, h, if_false]
      exact (List.Perm.cons q ih).trans (List.Perm.swap p q rest)

theorem marshalMap_perm (m : GoMap) : (marshalMap m).Perm m := by
  induction m with
  | nil => exact List.Perm.refl _
  | cons p m ih =>
    show (insertMember p (marshalMap m)).Perm (p :: m)
    exact (insertMember_perm p _).trans (List.Perm.cons p ih)

theorem insertMember_pairwise (p : String × Value) (o : JsonObject)
    (h : o.Pairwise (fun a b => a.1 ≤ b.1)) :
    (insertMember p o).Pairwise (fun a b => a.1 ≤ b.1) := by
  induction o with
  | nil => simp [insertMember]
  | cons q rest ih =>
    obtain ⟨hq, hrest⟩ := List.pairwise_cons.1 h
    by_cases hlt : p.1.data < q.1.data
    · have hpq : p.1 < q.1 := String.lt_iff_toList_lt.2 hlt
      simp only [insertMember, hlt, if_true]
      refine List.pairwise_cons.2 ⟨?_, h⟩
      intro x hx
      rcases List.mem_cons.1 hx with rfl | hx
      · exact le_of_lt hpq
      · exact le_trans (le_of_lt hpq) (hq x hx)
    · have hqp : q.1 ≤ p.1 := not_lt.1 (fun hh => hlt (String.lt_iff_toList_lt.1 hh))
      simp only [insertMember, hlt, if_false]
      refine List.pairwise_cons.2 ⟨?_, ih hrest⟩
      intro x hx
      rcases List.mem_cons.1 ((insertMember_perm p rest).mem_iff.1 hx) with rfl | hx
      · exact hqp
      · exact hq x hx

theorem marshalMap_pairwise (m : GoMap) :
    (marshalMap m).Pairwise (fun a b => a.1 ≤ b.1) := by
  induction m with
  | nil => exact List.Pairwise.nil
  | cons p m ih => exact insertMember_pairwise p _ ih

/-- The keys of a marshalled map are strictly ascending and are the keys of the map. -/
theorem marshalMap_keys (m : GoMap) (hnd : (GoMap.keys m).Nodup) :
    (JsonObject.keys (marshalMap m)).Pairwise (fun a b => a < b) ∧
    ∀ k, k ∈ JsonObject.keys (marshalMap m) ↔ k ∈ GoMap.keys m := by
  have hperm : (JsonObject.keys (marshalMap m)).Perm (GoMap.keys m) :=
    (marshalMap_perm m).map Prod.fst
  have hnd' : (JsonObject.keys (marshalMap m)).Nodup := hperm.nodup_iff.2 hnd
  have hle : (JsonObject.keys (marshalMap m)).Pairwise (fun a b => a ≤ b) :=
    List.pairwise_map.2 (marshalMap_pairwise m)
  refine ⟨?_, fun k => hperm.mem_iff⟩
  exact (hle.and hnd').imp (fun h => lt_of_le_of_ne h.1 h.2)

/-- C15 as stated fails: with the header `name, id` the record is written with `id`
before `name`, since `encoding/json` sorts the keys of a map. -/
theorem marshal_key_order_counterexample :
    parseArray noFloat (fileOf [[], [], [], ["name", "id"], ["string", "int"], ["Alice", "1"]])
      = Result.ok [[("name", Value.str "Alice"), ("id", Value.int 1)]] ∧
    MarshalIndent (Cfg.list [[("name", Value.str "Alice"), ("id", Value.int 1)]])
      = some (JsonDoc.array [[("id", Value.int 1), ("name", Value.str "Alice")]]) ∧
    (JsonDoc.objects
        (JsonDoc.array [[("id", Value.int 1), ("name", Value.str "Alice")]])).map JsonObject.keys
      = [["id", "name"]] ∧
    (JsonDoc.objects
        (JsonDoc.array [[("id", Value.int 1), ("name", Value.str "Alice")]])).map JsonObject.keys
      ≠ [["name", "id"]] := by
  refine ⟨by decide, by decide, by decide, by decide⟩

theorem MarshalIndent_list_of_finite (cfgs : List GoMap)
    (hfin : ∀ record ∈ cfgs, ∀ p ∈ record, ∀ bits : Nat,
      p.2 = Value.float bits → isNaNOrInf bits = false) :
    MarshalIndent (Cfg.list cfgs) = some (JsonDoc.array (cfgs.map marshalMap)) := by
  have hall : cfgs.all GoMap.marshals = true := by
    rw [List.all_eq_true]
    intro record hrec
    simp only [GoMap.marshals]
    rw [List.all_eq_true]
    intro p hp
    cases hv : p.2 with
    | int i => rfl
    | str s => rfl
    | float bits => simp [Value.marshals, hfin record hrec p hp bits hv]
  simp [MarshalIndent, hall]

theorem MarshalIndent_list_some (cfgs : List GoMap) (doc : JsonDoc)
    (h : MarshalIndent (Cfg.list cfgs) = some doc) :
    doc = JsonDoc.array (cfgs.map marshalMap) := by
  simp only [MarshalIndent] at h
  split at h
  · exact (Option.some.inj h).symm
  · exact absurd h (by simp)

/-- C15, amended: `json.MarshalIndent` produces the document of a list-shape sheet
whenever no record holds a NaN or an infinite float; in the document it produces the
objects follow the data rows, and the keys of every object are the declared field names
in strictly ascending order of their bytes, whatever the order of the header row; each
object has the members of its record. -/
theorem marshal_keys_sorted (f : File) (rows : List (List String)) (cfgs : List GoMap)
    (fields : List String) (hrows : f.GetRows "Sheet1" = Except.ok rows)
    (hf : rows[3]? = some fields) (h : parseArray ParseFloat f = Result.ok cfgs) :
    ((∀ record ∈ cfgs, ∀ p ∈ record, ∀ bits : Nat,
        p.2 = Value.float bits → isNaNOrInf bits = false) →
      MarshalIndent (Cfg.list cfgs) = some (JsonDoc.array (cfgs.map marshalMap))) ∧
    ∀ doc, MarshalIndent (Cfg.list cfgs) = some doc →
      JsonDoc.objects doc = cfgs.map marshalMap ∧
      ∀ (j : Nat) (o : JsonObject), (JsonDoc.objects doc)[j]? = some o →
        (JsonObject.keys o).Pairwise (fun a b => a < b) ∧
        (∀ k, k ∈ JsonObject.keys o ↔ k ∈ fields) ∧
        ∃ record, cfgs[j]? = some record ∧ o.Perm record := by
  refine ⟨MarshalIndent_list_of_finite cfgs, ?_⟩
  intro doc hdoc
  have hd := MarshalIndent_list_some cfgs doc hdoc
  subst hd
  refine ⟨rfl, ?_⟩
  intro j o ho
  obtain ⟨fields', types, h3, h4, _, hloop⟩ :=
    parseArray_ok_header ParseFloat f rows cfgs hrows h
  rw [hf] at h3
  cases h3
  obtain ⟨recs, hc, hl, hj⟩ := arrayLoop_ok ParseFloat fields types _ _ _ _ hloop
  simp only [List.nil_append] at hc
  subst hc
  simp only [JsonDoc.objects, List.getElem?_map, Option.map_eq_some'] at ho
  obtain ⟨record, hrec, hom⟩ := ho
  subst hom
  have hjlt : j < (rows.drop 5).length := by
    rw [← hl]
    exact (List.getElem?_eq_some.1 hrec).1
  obtain ⟨r, hr1, hr2⟩ := hj j (rows.drop 5)[j] (List.getElem?_eq_getElem hjlt)
  rw [hrec] at hr1
  cases hr1
  obtain ⟨hnd, hkeys, _⟩ := rowRecord_ok_contents ParseFloat fields types _ _ _ hr2
  obtain ⟨hsorted, hmem⟩ := marshalMap_keys record hnd
  exact ⟨hsorted, fun k => (hmem k).trans (hkeys k), record, hrec, marshalMap_perm record⟩

/-- C15, amended, at the header `name, id`: the keys are written as `id, name`. -/
theorem marshal_keys_sorted_witness :
    parseArray noFloat (fileOf [[], [], [], ["name", "id"], ["string", "int"], ["Alice", "1"]])
      = Result.ok [[("name", Value.str "Alice"), ("id", Value.int 1)]] ∧
    MarshalIndent (Cfg.list [[("name", Value.str "Alice"), ("id", Value.int 1)]])
      = some (JsonDoc.array [[("id", Value.int 1), ("name", Value.str "Alice")]]) ∧
    JsonDoc.objects (JsonDoc.array [[("id", Value.int 1), ("name", Value.str "Alice")]])
      = [[("name", Value.str "Alice"), ("id", Value.int 1)]].map marshalMap :=
  ⟨by decide, by decide, ((marshal_keys_sorted noFloat
    (fileOf [[], [], [], ["name", "id"], ["string", "int"], ["Alice", "1"]])
    [[], [], [], ["name", "id"], ["string", "int"], ["Alice", "1"]]
    [[("name", Value.str "Alice"), ("id", Value.int 1)]] ["name", "id"] rfl rfl
    (by decide)).2 (JsonDoc.array [[("id", Value.int 1), ("name", Value.str "Alice")]])
    (by decide)).1⟩

theorem TrimPrefix_append (root rel : String) : TrimPrefix (root ++ rel) root = rel := by
  have hp : HasPrefix (root ++ rel) root = true := by
    simp only [HasPrefix, String.data_append]
    exact List.isPrefixOf_iff_prefix.2 (List.prefix_append _ _)
  simp only [TrimPrefix, hp, if_true, String.data_append, List.drop_left]

/-- C16: if the absolute parent directory of the source file is `root ++ rel`, where
`root` is the absolute scanned root in `dirParam`, then for every name `n` read from
`B1` the path `parseExcel` computes is `Join(pwd, "json", rel, n + ".json")`: the tree
below the root is mirrored below `<pwd>/json`, and the file is named after `B1`, not
after the source. A run of `parseExcel` that returns nil has created and written exactly
that path, in the directory `Dir` of it, with `json.MarshalIndent` of the parsed value. -/
theorem jsonFilePath_mirrors_tree (env : Env) (xlsxName n root rel : String)
    (hroot : env.dirParam = root) (habs : Abs env.pwd (Dir xlsxName) = root ++ rel) :
    jsonFilePath env xlsxName n = Join [env.pwd, "json", rel, n ++ ".json"] ∧
    ∀ (t t' : List Event) (f : File), env.OpenFile t xlsxName = Except.ok f →
      f.GetCellValue "Sheet1" "B1" = Except.ok n →
      parseExcel ParseFloat env xlsxName t = (Outcome.nil, t') →
      ∃ cfgs, ParsedAs ParseFloat f cfgs ∧ t' = t ++ conversionCalls xlsxName
        (Join [env.pwd, "json", rel, n ++ ".json"]) (MarshalIndent cfgs) := by
  have hpath : jsonFilePath env xlsxName n = Join [env.pwd, "json", rel, n ++ ".json"] := by
    simp only [jsonFilePath, habs, hroot, TrimPrefix_append]
  refine ⟨hpath, ?_⟩
  intro t t' f hopen hB1 hrun
  obtain ⟨f', fileName, cfgs, hopen', hB1', hparsed, ht'⟩ :=
    parseExcel_nil ParseFloat env xlsxName t t' hrun
  rw [hopen] at hopen'
  cases hopen'
  rw [hB1] at hB1'
  cases hB1'
  exact ⟨cfgs, hparsed, by rw [ht', hpath]⟩

set_option maxRecDepth 20000 in
/-- C16, at the root `/data`, the source `/data/sub/a.xlsx`, the name `cfg` in `B1` and
the working directory `/out`: the path is `/out/json/sub/cfg.json`. -/
theorem jsonFilePath_mirrors_tree_witness :
    jsonFilePath sampleEnv "/data/sub/a.xlsx" "cfg" = "/out/json/sub/cfg.json" ∧
    Abs "/out" (Dir "/data/sub/a.xlsx") = "/data" ++ "/sub" :=
  ⟨((jsonFilePath_mirrors_tree noFloat sampleEnv "/data/sub/a.xlsx" "cfg" "/data" "/sub"
      rfl (by decide)).1).trans (by decide), by decide⟩

end Claims

end Xls2json
